import Mathlib

/-!
# Verification development for the bracket-core tournament engine

Shallow embedding of `src/bracketcore/bracketcore_codebase.py`.

Conventions used throughout:
* Python `dict` objects (insertion-ordered, unique keys) are modelled as
  association lists (`List (K × V)`) with `dictLookup` (first binding) and
  `dictInsert` (update-in-place or append).
* Python exceptions (`KeyError`, `IndexError`) are modelled by `Option`:
  `none` is a raised exception, `some` a normal return.
* A Python method that returns `None` on a fall-through path and an object
  otherwise is modelled as returning `Option` of the object *inside* the
  `Option` layer used for exceptions.
* Python integers are `Int`; Python truthiness of optional arguments is
  modelled explicitly (`pyTruthyBool`, `pyOrInt`).
* Python compares `Team` objects by identity (`Team` defines no `__eq__`).
  The embedding uses structural equality; theorems that depend on two teams
  being different objects carry an explicit `≠` hypothesis.
-/

/-- Keys of the multi-key indexes: Python `str | int`. -/
inductive IKey where
  | str (s : String)
  | int (i : Int)
deriving DecidableEq, Repr

/-- A team identifier: Python `team_identifier = Team | str | int`. -/
inductive TeamIdent' (Team : Type) where
  | team (t : Team)
  | str (s : String)
  | int (i : Int)
deriving DecidableEq, Repr

/-- Lookup in an insertion-ordered dict modelled as an association list:
the first binding of the key (keys are unique by construction). -/
def dictLookup {K V : Type} [DecidableEq K] (d : List (K × V)) (k : K) : Option V :=
  (d.find? (fun p => p.1 = k)).map (fun p => p.2)

/-- `d[k] = v` on a Python dict: update the existing binding in place,
otherwise append a new binding (insertion order preserved). -/
def dictInsert {K V : Type} [DecidableEq K] (d : List (K × V)) (k : K) (v : V) :
    List (K × V) :=
  if d.any (fun p => p.1 = k) then
    d.map (fun p => if p.1 = k then (k, v) else p)
  else
    d ++ [(k, v)]

/-- `class Team`: a numeric id, a name, and zero or more aliases. -/
structure Team where
  id : Int
  name : String
  aliases : List String
deriving DecidableEq, Repr

abbrev TeamIdent := TeamIdent' Team

/-- The dict key a `team_identifier` is looked up under
(`_get_team_index` replaces a `Team` by its `id`). -/
def identKey : TeamIdent → IKey
  | .team t => .int t.id
  | .str s => .str s
  | .int i => .int i

/-- `class TeamContainer`: the list of registered teams plus the multi-key
index mapping name/id/alias to the team's slot. -/
structure TeamContainer where
  teams : List Team
  indexes : List (IKey × Nat)
deriving DecidableEq, Repr

/-- `TeamContainer._get_team_index`: resolve an identifier to a slot;
`none` models the `KeyError` raised on an unknown identifier. -/
def TeamContainer.getTeamIndex (tc : TeamContainer) (k : TeamIdent) : Option Nat :=
  dictLookup tc.indexes (identKey k)

/-- `TeamContainer.get` / `__getitem__`: resolve an identifier to a `Team`. -/
def TeamContainer.get (tc : TeamContainer) (k : TeamIdent) : Option Team := do
  let i ← tc.getTeamIndex k
  tc.teams[i]?

/-- Python truthiness of an optional bool argument (`None` and `False` falsy). -/
def pyTruthyBool : Option Bool → Bool
  | some b => b
  | none => false

/-- Python `a or b` for an optional int `a` (`None` and `0` falsy). -/
def pyOrInt (a : Option Int) (b : Int) : Int :=
  match a with
  | some v => if v = 0 then b else v
  | none => b

/-- `class Series`: the stored fields of one series result. -/
structure Series where
  team_1 : Team
  team_2 : Team
  rscore_1 : Int
  rscore_2 : Int
  rwin_1 : Bool
  rwin_2 : Bool
  vscore_1 : Int
  vscore_2 : Int
  vwin_1 : Bool
  vwin_2 : Bool
  exhaused : Bool
deriving DecidableEq, Repr

/-- `Series.__init__`.  The source lines are
`self.rwin_1 = rwin_1 or True if rscore_1 > rscore_2 else False`
(Python parses this as `(rwin_1 or True) if rscore_1 > rscore_2 else False`),
`self.vscore_1 = vscore_1 or rscore_1`, and
`self.vwin_1 = vwin_1 or self.rwin_1`; optional parameters not supplied
default to `None` (`none` here). -/
def Series.make (team_1 team_2 : Team) (rscore_1 rscore_2 : Int)
    (rwin_1 rwin_2 : Option Bool) (vscore_1 vscore_2 : Option Int)
    (vwin_1 vwin_2 : Option Bool) : Series :=
  let rw1 : Bool := if rscore_1 > rscore_2 then (pyTruthyBool rwin_1 || true) else false
  let rw2 : Bool := if rscore_1 < rscore_2 then (pyTruthyBool rwin_2 || true) else false
  { team_1 := team_1
    team_2 := team_2
    rscore_1 := rscore_1
    rscore_2 := rscore_2
    rwin_1 := rw1
    rwin_2 := rw2
    vscore_1 := pyOrInt vscore_1 rscore_1
    vscore_2 := pyOrInt vscore_2 rscore_2
    vwin_1 := if pyTruthyBool vwin_1 then true else rw1
    vwin_2 := if pyTruthyBool vwin_2 then true else rw2
    exhaused := false }

/-- `class SeriesContainer`: the result log.  Buckets of series are kept per
unordered pair of team ids; `indexes` maps both orientations of the pair to
the bucket's position in `series`. -/
structure SeriesContainer where
  tc : TeamContainer
  indexes : List ((Int × Int) × Nat)
  series : List (List Series)
deriving DecidableEq, Repr

def SeriesContainer.empty (tc : TeamContainer) : SeriesContainer :=
  ⟨tc, [], []⟩

/-- `SeriesContainer.register`: append to the bucket of the pair, creating
the bucket (indexed under both orientations) if absent. -/
def SeriesContainer.register (sc : SeriesContainer) (s : Series) : SeriesContainer :=
  let matchup : Int × Int := (s.team_1.id, s.team_2.id)
  match dictLookup sc.indexes matchup with
  | some i => { sc with series := sc.series.set i (sc.series.getD i [] ++ [s]) }
  | none =>
    let index := sc.series.length
    { sc with
      series := sc.series ++ [[s]]
      indexes := dictInsert (dictInsert sc.indexes matchup index)
        (matchup.2, matchup.1) index }

/-- The scan inside `SeriesContainer._get_series`: find the first entry whose
`exhaused` flag is unset, mark it, and return the marked entry together with
the updated bucket. -/
def takeFirstUnexhausted : List Series → Option (Series × List Series)
  | [] => none
  | s :: rest =>
    if s.exhaused then
      (takeFirstUnexhausted rest).map (fun p => (p.1, s :: p.2))
    else
      some ({ s with exhaused := true }, { s with exhaused := true } :: rest)

/-- `SeriesContainer._get_series` / `get` / `__getitem__`: resolve both
identifiers through the team container (outer `Option`: a `KeyError`
propagates), look the pair's bucket up, and consume the first unexhausted
entry; the inner `Option` is the Python `None` returned when the bucket is
missing or every entry is consumed. -/
def SeriesContainer.getSeries (sc : SeriesContainer) (k1 k2 : TeamIdent) :
    Option (Option Series × SeriesContainer) := do
  let t1 ← sc.tc.get k1
  let t2 ← sc.tc.get k2
  match dictLookup sc.indexes (t1.id, t2.id) with
  | some i =>
    match takeFirstUnexhausted (sc.series.getD i []) with
    | some (s, bucket) => some (some s, { sc with series := sc.series.set i bucket })
    | none => some (none, sc)
  | none => some (none, sc)

/-- `SeriesContainer.get_played_series`: every exhausted entry, in bucket
order. -/
def SeriesContainer.getPlayedSeries (sc : SeriesContainer) : List Series :=
  sc.series.flatMap (fun bucket => bucket.filter (fun s => s.exhaused))

/-- A sequence of `take` calls (`_get_series`) with the given identifier
pairs, collecting each call's return value. -/
def SeriesContainer.takeSeq (sc : SeriesContainer) :
    List (TeamIdent × TeamIdent) → Option (List (Option Series) × SeriesContainer)
  | [] => some ([], sc)
  | (k1, k2) :: rest => do
    let (r, sc') ← sc.getSeries k1 k2
    let (rs, sc'') ← sc'.takeSeq rest
    some (r :: rs, sc'')

/-- `class Differentials.DifferentialContainer` as a value: the dense value
array together with the shared multi-key index.  (The object-level sharing of
the value array that `copy()` exhibits is modelled separately by `DCObject`
and `Store` below; this value form is used for the arithmetic of
`add_raw`/`combine`, whose tracks are backed by distinct arrays.) -/
structure DifferentialContainer where
  values : List Int
  indexes : List (IKey × Nat)
deriving DecidableEq, Repr

/-- `DifferentialContainer._get_team_index`. -/
def DifferentialContainer.getTeamIndex (c : DifferentialContainer) (k : TeamIdent) :
    Option Nat :=
  dictLookup c.indexes (identKey k)

/-- `DifferentialContainer.__getitem__` / `get`. -/
def DifferentialContainer.get (c : DifferentialContainer) (k : TeamIdent) : Option Int := do
  let i ← c.getTeamIndex k
  c.values[i]?

/-- `self[k] += v` through `__getitem__`/`__setitem__`. -/
def DifferentialContainer.addAt (c : DifferentialContainer) (k : TeamIdent) (v : Int) :
    Option DifferentialContainer := do
  let i ← c.getTeamIndex k
  let cur ← c.values[i]?
  some { c with values := c.values.set i (cur + v) }

/-- The index built by `Differentials.__init__`: for each team, in slot
order, bind its name, its id and every alias to the team's slot. -/
def diffsIndexes (teams : List Team) : List (IKey × Nat) :=
  teams.enum.foldl
    (fun acc p =>
      let i := p.1
      let team := p.2
      team.aliases.foldl (fun acc a => dictInsert acc (.str a) i)
        (dictInsert (dictInsert acc (.str team.name) i) (.int team.id) i))
    []

/-- `class Differentials`: the four tracks.  `__init__` gives every track the
same index and a fresh constant-filled value array (`copy(dv)` with an `int`
default allocates a new array). -/
structure Differentials where
  rgd : DifferentialContainer
  vgd : DifferentialContainer
  rsd : DifferentialContainer
  vsd : DifferentialContainer
deriving DecidableEq, Repr

/-- `Differentials.__init__`. -/
def Differentials.init (tc : TeamContainer) (rgd_dv vgd_dv rsd_dv vsd_dv : Int) :
    Differentials :=
  let idx := diffsIndexes tc.teams
  let mk := fun (dv : Int) =>
    DifferentialContainer.mk (tc.teams.map (fun _ => dv)) idx
  ⟨mk rgd_dv, mk vgd_dv, mk rsd_dv, mk vsd_dv⟩

/-- `Differentials.add_raw`: add the four deltas to the four tracks for one
identifier; `none` models the `KeyError` on an unknown identifier. -/
def Differentials.addRaw (d : Differentials) (k : TeamIdent)
    (rgd vgd rsd vsd : Int) : Option Differentials := do
  let r ← d.rgd.addAt k rgd
  let v ← d.vgd.addAt k vgd
  let rs ← d.rsd.addAt k rsd
  let vs ← d.vsd.addAt k vsd
  some ⟨r, v, rs, vs⟩

/-- One step of building `unique_indexes` in `Differentials.combine`: either
append the identifier to the existing group of its slot, or open a new group
at the end. -/
def addToGroup (gs : List (Nat × List IKey)) (i : Nat) (k : IKey) :
    List (Nat × List IKey) :=
  if gs.any (fun g => g.1 = i) then
    gs.map (fun g => if g.1 = i then (g.1, g.2 ++ [k]) else g)
  else
    gs ++ [(i, [k])]

/-- `unique_indexes` of `Differentials.combine`: iterate the outside index in
insertion order, skip identifiers whose slot holds value `0`, and group the
remaining identifiers by slot. -/
def buildUnique (outsideIdx : List (IKey × Nat)) (outsideVals : List Int) :
    List (Nat × List IKey) :=
  outsideIdx.foldl
    (fun gs p => if outsideVals.getD p.2 0 = 0 then gs else addToGroup gs p.2 p.1)
    []

/-- The second loop of `Differentials.combine`: for each group, the first
identifier that exists in the inside index receives the outside slot's value
(`inside_diff[identifier] += outside._values[index]`, then `break`). -/
def applyGroups (insideVals : List Int) (insideIdx : List (IKey × Nat))
    (outsideVals : List Int) : List (Nat × List IKey) → List Int
  | [] => insideVals
  | (i, ids) :: rest =>
    let next :=
      match ids.findSome? (fun k => dictLookup insideIdx k) with
      | some t => insideVals.set t (insideVals.getD t 0 + outsideVals.getD i 0)
      | none => insideVals
    applyGroups next insideIdx outsideVals rest

/-- One track of `Differentials.combine`: the inside value array after the
outside track has been merged in. -/
def combineTrackVals (insideVals : List Int) (insideIdx : List (IKey × Nat))
    (outsideVals : List Int) (outsideIdx : List (IKey × Nat)) : List Int :=
  applyGroups insideVals insideIdx outsideVals (buildUnique outsideIdx outsideVals)

/-- One track of `Differentials.combine` at the container level. -/
def DifferentialContainer.combineFrom (inside outside : DifferentialContainer) :
    DifferentialContainer :=
  { inside with
    values := combineTrackVals inside.values inside.indexes outside.values outside.indexes }

/-- The body of `Differentials.combine` for one input tracker: merge the four
corresponding tracks in order. -/
def Differentials.combineOne (self other : Differentials) : Differentials :=
  ⟨self.rgd.combineFrom other.rgd, self.vgd.combineFrom other.vgd,
   self.rsd.combineFrom other.rsd, self.vsd.combineFrom other.vsd⟩

/-- `Differentials.combine(*dfs)`. -/
def Differentials.combine (self : Differentials) (dfs : List Differentials) :
    Differentials :=
  dfs.foldl Differentials.combineOne self

/-- Specification helper: the identifiers bound to slot `s` in an index, in
the index's iteration order (a competitor's key-set). -/
def idsOf (idx : List (IKey × Nat)) (s : Nat) : List IKey :=
  (idx.filter (fun p => p.2 = s)).map (fun p => p.1)

/-- Specification helper: the slot the value of source slot `s` lands on —
the target slot of the first identifier of `s`'s key-set that exists in the
target index. -/
def firstMatch (insideIdx outsideIdx : List (IKey × Nat)) (s : Nat) : Option Nat :=
  (idsOf outsideIdx s).findSome? (fun k => dictLookup insideIdx k)

/-- Specification helper: first-occurrence deduplication. -/
def firstOccurrences (l : List Nat) : List Nat :=
  l.foldl (fun acc x => if x ∈ acc then acc else acc ++ [x]) []

/-- Specification helper: the slots of the source index holding a nonzero
value, with multiplicity, in index iteration order. -/
def nonzeroSlots (idx : List (IKey × Nat)) (vals : List Int) : List Nat :=
  (idx.map (fun p => p.2)).filter (fun i => vals.getD i 0 ≠ 0)

/-- Specification: the total amount `combine` adds to target slot `t` — each
source competitor (slot) with a nonzero value counted exactly once, landing
on the slot of the first of its identifiers present in the target index. -/
def combineContribution (insideIdx outsideIdx : List (IKey × Nat))
    (outsideVals : List Int) (t : Nat) : Int :=
  (((firstOccurrences (nonzeroSlots outsideIdx outsideVals)).filter
      (fun s => firstMatch insideIdx outsideIdx s = some t)).map
    (fun s => outsideVals.getD s 0)).sum

/-!
## Object-level model of `DifferentialContainer` value-array sharing

Python lists are mutable heap objects; `copy()` without a default passes
`self._values` itself to the new container, so the two containers share one
array.  `Store` is the heap of value arrays and `DCObject` a container whose
`valuesRef` points into it.
-/

abbrev Store := List (List Int)

/-- A `DifferentialContainer` object: a reference to its value array in the
store, plus the (immutable, shared) index. -/
structure DCObject where
  valuesRef : Nat
  indexes : List (IKey × Nat)
deriving DecidableEq, Repr

/-- Dereference a value array. -/
def storeRead (st : Store) (r : Nat) : List Int :=
  st.getD r []

/-- `DifferentialContainer._get_team_index` at the object level. -/
def DCObject.getTeamIndex (c : DCObject) (k : TeamIdent) : Option Nat :=
  dictLookup c.indexes (identKey k)

/-- `DifferentialContainer.__getitem__` at the object level. -/
def DCObject.get (st : Store) (c : DCObject) (k : TeamIdent) : Option Int := do
  let i ← c.getTeamIndex k
  (storeRead st c.valuesRef)[i]?

/-- `DifferentialContainer.__setitem__` / `set` at the object level: write
through the reference (`none` models `KeyError`/`IndexError`). -/
def DCObject.set (st : Store) (c : DCObject) (k : TeamIdent) (v : Int) : Option Store := do
  let i ← c.getTeamIndex k
  let vals := storeRead st c.valuesRef
  if i < vals.length then
    some (st.set c.valuesRef (vals.set i v))
  else
    none

/-- `copy()` without a default: a new container object built from
`self._values` itself and `self._indexes` — the value array is shared. -/
def DCObject.copy (c : DCObject) : DCObject :=
  ⟨c.valuesRef, c.indexes⟩

/-- `copy(default_value)` with an `int` default: a new container built from
the fresh array `[default_value for _ in self._values]`. -/
def DCObject.copyDefault (st : Store) (c : DCObject) (d : Int) : DCObject × Store :=
  (⟨st.length, c.indexes⟩, st ++ [(storeRead st c.valuesRef).map (fun _ => d)])

/-!
## Seeding and the rematch-avoidance search
-/

/-- Python `list.index`: position of the first occurrence (total here; every
use in the source is guarded by a membership test). -/
def pyIndex (l : List (Option Team)) (x : Option Team) : Nat :=
  match l with
  | [] => 0
  | y :: ys => if y = x then 0 else pyIndex ys x + 1

/-- `itertools.permutations(l, len(l))` in its documented lexicographic
generation order, with the list's length as structural fuel. -/
def permsAux : Nat → List Nat → List (List Nat)
  | 0, _ => [[]]
  | fuel + 1, l =>
    (List.range l.length).flatMap
      (fun i => (permsAux fuel (l.eraseIdx i)).map (fun p => l.getD i 0 :: p))

/-- `Seeding._get_rematch_permutations`: all permutations of
`range(len(seeding))` in generation order. -/
def rematchPermutations (n : Nat) : List (List Nat) :=
  permsAux n (List.range n)

/-- `SeedingInterpreter.standard` on a bare ordered list: drop a trailing odd
element, split in half, pair position `i` of the first half with position `i`
of the second half. -/
def standardPairs {α : Type} (l : List α) : List (α × α) :=
  let s := if l.length % 2 = 1 then l.dropLast else l
  (s.take (s.length / 2)).zip (s.drop (s.length / 2))

/-- The `previous_matchup_indexes` computation of `Seeding.sort_no_rematches`:
played series whose two teams both sit in the current seeding, mapped to
their (first-occurrence) index pairs, then closed under orientation
reversal. -/
def prevMatchupIndexes (sg : List (Option Team)) (played : List Series) :
    List (Nat × Nat) :=
  let base :=
    (played.filter
      (fun s => decide ((some s.team_1) ∈ sg) && decide ((some s.team_2) ∈ sg))).map
      (fun s => (pyIndex sg (some s.team_1), pyIndex sg (some s.team_2)))
  base ++ base.map (fun m => (m.2, m.1))

/-- The permutation loop of `Seeding.sort_no_rematches`: interpret each
permutation with the seeding interpreter, reject it if any of its pairings
was already played, and accept the first clean permutation by reordering the
seeding with it. -/
def snrLoop (sg : List (Option Team)) (si : List Nat → List (Nat × Nat))
    (prev : List (Nat × Nat)) : List (List Nat) → Option (List (Option Team))
  | [] => none
  | p :: rest =>
    let interpreted := si p
    if interpreted.any (fun m => decide (m ∈ prev)) then
      snrLoop sg si prev rest
    else
      some (p.map (fun i => sg.getD i none))

/-- The observable outcome of `Seeding.sort_no_rematches`: the value of
`self.seeding_` after the call, and whether the call returned the `Seeding`
(success) or fell through returning `None`. -/
structure SortNoRematchesOut where
  seeding : List (Option Team)
  success : Bool
deriving DecidableEq, Repr

/-- `Seeding.sort_no_rematches(sc, si)` (the overload without `sort_by`; the
claims under verification pass no sort criteria, so the initial
`self.sort(*sort_by)` call is not taken).  On success `self.seeding_` is
reordered by the accepted permutation and `self` is returned; on exhaustion
`self.seeding_` is not assigned and the method implicitly returns `None`. -/
def Seeding.sortNoRematches (sg : List (Option Team)) (sc : SeriesContainer)
    (si : List Nat → List (Nat × Nat)) : SortNoRematchesOut :=
  let played := sc.getPlayedSeries
  let prev := prevMatchupIndexes sg played
  match snrLoop sg si prev (rematchPermutations sg.length) with
  | some sg' => ⟨sg', true⟩
  | none => ⟨sg, false⟩

/-!
## Matchup resolution
-/

/-- `class Matchup.Result`: every field optional, defaulting to `None`. -/
structure MatchupResult where
  team_1 : Option Team := none
  team_2 : Option Team := none
  rscore_1 : Option Int := none
  rscore_2 : Option Int := none
  vscore_1 : Option Int := none
  vscore_2 : Option Int := none
  rwin_1 : Option Bool := none
  rwin_2 : Option Bool := none
  vwin_1 : Option Bool := none
  vwin_2 : Option Bool := none
  is_winner_1 : Option Bool := none
  is_winner_2 : Option Bool := none
  winner : Option Team := none
  loser : Option Team := none
  winner_rscore : Option Int := none
  loser_rscore : Option Int := none
  df : Option Differentials := none
  idf : Option Differentials := none
deriving DecidableEq, Repr

/-- `Matchup.Result(team_1, team_2)`: the identity-only outcome. -/
def MatchupResult.identityOnly (t1 t2 : Option Team) : MatchupResult :=
  { team_1 := t1, team_2 := t2 }

/-- The body of `Matchup.calculate` from the point where a series has been
taken (source lines 462–509): build the internal tracker from `sc._tc`,
align the series data so side 1 is `team_1`'s, compute the four signed
deltas per team, apply them to the internal tracker and, when supplied, to
the shared tracker, and build the full result.  Returns the result and the
shared tracker after its `add_raw` calls; the outer `Option` models a
propagated exception. -/
def Matchup.resolveData (team_1 team_2 : Team) (series : Series)
    (tc : TeamContainer) (df : Option Differentials) :
    Option (MatchupResult × Option Differentials) := do
  let idf := Differentials.init tc 0 0 0 0
  let t1d := (series.rscore_1, series.vscore_1, series.rwin_1, series.vwin_1)
  let t2d := (series.rscore_2, series.vscore_2, series.rwin_2, series.vwin_2)
  let (t1_rs, t1_vs, t1_rw, t1_vw, t2_rs, t2_vs, t2_rw, t2_vw) :=
    if series.team_1 = team_1 then
      (t1d.1, t1d.2.1, t1d.2.2.1, t1d.2.2.2, t2d.1, t2d.2.1, t2d.2.2.1, t2d.2.2.2)
    else
      (t2d.1, t2d.2.1, t2d.2.2.1, t2d.2.2.2, t1d.1, t1d.2.1, t1d.2.2.1, t1d.2.2.2)
  let t1_diffs := (t1_rs - t2_rs, t1_vs - t2_vs,
    if t1_rw then (1 : Int) else -1, if t1_vw then (1 : Int) else -1)
  let t2_diffs := (t2_rs - t1_rs, t2_vs - t1_vs,
    if t2_rw then (1 : Int) else -1, if t2_vw then (1 : Int) else -1)
  let idf' ← idf.addRaw (.team team_1) t1_diffs.1 t1_diffs.2.1 t1_diffs.2.2.1 t1_diffs.2.2.2
  let idf'' ← idf'.addRaw (.team team_2) t2_diffs.1 t2_diffs.2.1 t2_diffs.2.2.1 t2_diffs.2.2.2
  let df' ←
    match df with
    | none => some (none : Option Differentials)
    | some d => do
      let d' ← d.addRaw (.team team_1) t1_diffs.1 t1_diffs.2.1 t1_diffs.2.2.1 t1_diffs.2.2.2
      let d'' ← d'.addRaw (.team team_2) t2_diffs.1 t2_diffs.2.1 t2_diffs.2.2.1 t2_diffs.2.2.2
      some (some d'')
  let (winner, loser, winner_rscore, loser_rscore) :=
    if t1_rs > t2_rs then (team_1, team_2, t1_rs, t2_rs)
    else (team_2, team_1, t2_rs, t1_rs)
  some
    ({ team_1 := some team_1
       team_2 := some team_2
       rscore_1 := some t1_rs
       rscore_2 := some t2_rs
       vscore_1 := some t1_vs
       vscore_2 := some t2_vs
       rwin_1 := some t1_rw
       rwin_2 := some t2_rw
       vwin_1 := some t1_vw
       vwin_2 := some t2_vw
       is_winner_1 := some (decide (t1_rs > t2_rs))
       is_winner_2 := some (decide (t1_rs < t2_rs))
       winner := some winner
       loser := some loser
       winner_rscore := some winner_rscore
       loser_rscore := some loser_rscore
       df := df'
       idf := some idf'' }, df')

/-- `Matchup.calculate(tc, sc, df)` after the two team fetchers have been
evaluated (`team_1?`/`team_2?` are the fetched teams, `none` when the
fetcher is `None` or returned `None`).  The `tc` parameter of the source
method is unused by its body (the internal tracker is built from `sc._tc`),
so it is not a parameter here.  Returns the result, the series container
after the `take`, and the shared tracker after its `add_raw` calls. -/
def Matchup.calculate (sc : SeriesContainer) (team_1? team_2? : Option Team)
    (df : Option Differentials) :
    Option (MatchupResult × SeriesContainer × Option Differentials) :=
  match team_1?, team_2? with
  | some team_1, some team_2 => do
    let (series?, sc') ← sc.getSeries (.team team_1) (.team team_2)
    match series? with
    | none => some (.identityOnly (some team_1) (some team_2), sc', df)
    | some series => do
      let (res, df') ← Matchup.resolveData team_1 team_2 series sc.tc df
      some (res, sc', df')
  | t1?, t2? => some (.identityOnly t1? t2?, sc, df)

/-!
## Round (MatchSet) resolution and the bracket model
-/

/-- `class MatchSet.Result`. -/
structure MatchSetResult where
  results : List MatchupResult
  winners : List (Option Team)
  losers : List (Option Team)
  idf : Differentials
  df : Option Differentials
deriving DecidableEq, Repr

/-- The per-matchup loop of `MatchSet.calculate`: resolve each pairing in
order, threading the series container and the shared tracker. -/
def MatchSet.calcEach (sc : SeriesContainer) (df : Option Differentials) :
    List (Option Team × Option Team) →
    Option (List MatchupResult × SeriesContainer × Option Differentials)
  | [] => some ([], sc, df)
  | (t1, t2) :: rest => do
    let (r, sc', df') ← Matchup.calculate sc t1 t2 df
    let (rs, sc'', df'') ← MatchSet.calcEach sc' df' rest
    some (r :: rs, sc'', df'')

/-- `Seeding.set(*identifiers)`: each non-`None` entry is resolved through
the registry (a `KeyError` propagates). -/
def Seeding.setFrom (tc : TeamContainer) (ids : List (Option Team)) :
    Option (List (Option Team)) :=
  ids.mapM (fun o =>
    match o with
    | none => some none
    | some t => (tc.get (.team t)).map some)

/-- `MatchSet.calculate(tc, sc, df)` after the seed fetcher has been
evaluated to `seeding` and with the configured seeding interpreter `si`. -/
def MatchSet.calculate (tc : TeamContainer) (sc : SeriesContainer)
    (seeding : List (Option Team))
    (si : List (Option Team) → List (Option Team × Option Team))
    (df : Option Differentials) :
    Option (MatchSetResult × SeriesContainer × Option Differentials) := do
  let team_matchups := si seeding
  let (matchup_results, sc', df') ← MatchSet.calcEach sc df team_matchups
  let idf := (Differentials.init tc 0 0 0 0).combine
    (matchup_results.filterMap (fun r => r.idf))
  let winning_seeding ← Seeding.setFrom tc (matchup_results.map (fun r => r.winner))
  let losing_seeding ← Seeding.setFrom tc (matchup_results.map (fun r => r.loser))
  some (⟨matchup_results, winning_seeding, losing_seeding, idf, df'⟩, sc', df')

/-- A computed node outcome: `Matchup.Result` or `MatchSet.Result`. -/
inductive NodeResult where
  | m (r : MatchupResult)
  | ms (r : MatchSetResult)
deriving DecidableEq, Repr

/-- The completion test of `BracketModel.calculate`:
`result.winner` for a `Matchup.Result`, `result.winners[0]` (through
`Seeding.__getitem__`, which yields `None` out of range) for a
`MatchSet.Result`. -/
def nodeWinner : NodeResult → Option Team
  | .m r => r.winner
  | .ms r => r.winners.getD 0 none

/-- A registered node.  Team and seeding fetchers are modelled as functions
of the results recorded so far: in the source they are closures reading
`BracketModel.results`, which at the time a node is computed holds exactly
the results of the nodes computed before it. -/
inductive BracketNode where
  | matchupNode (t1 t2 : List (Nat × NodeResult) → Option Team)
  | matchSetNode (sg : List (Nat × NodeResult) → List (Option Team))
      (si : List (Option Team) → List (Option Team × Option Team))

/-- One iteration of the loop in `BracketModel.calculate`: compute the node,
record its result under the node's key, and clear `complete` if the node's
winner test fails. -/
def BracketModel.step (tc : TeamContainer)
    (st : List (Nat × NodeResult) × SeriesContainer × Option Differentials × Bool)
    (kn : Nat × BracketNode) :
    Option (List (Nat × NodeResult) × SeriesContainer × Option Differentials × Bool) :=
  let (results, sc, df, complete) := st
  match kn.2 with
  | .matchupNode f1 f2 => do
    let (r, sc', df') ← Matchup.calculate sc (f1 results) (f2 results) df
    some (dictInsert results kn.1 (.m r), sc', df',
      complete && (nodeWinner (.m r)).isSome)
  | .matchSetNode fsg si => do
    let (r, sc', df') ← MatchSet.calculate tc sc (fsg results) si df
    some (dictInsert results kn.1 (.ms r), sc', df',
      complete && (nodeWinner (.ms r)).isSome)

/-- `BracketModel.calculate(sg, tc, sc, df)`: set `complete = True`, then
resolve every registered node in mapping order, recording each outcome and
accumulating the completion flag.  (The `sg` parameter is only stored by the
source, never read during the computation.) -/
def BracketModel.calculate (nodes : List (Nat × BracketNode)) (tc : TeamContainer)
    (sc : SeriesContainer) (df : Option Differentials) :
    Option (List (Nat × NodeResult) × SeriesContainer × Option Differentials × Bool) :=
  nodes.foldlM (BracketModel.step tc) ([], sc, df, true)

/-!
## Concrete fixtures
-/

def teamA : Team := ⟨1, "A", []⟩
def teamB : Team := ⟨2, "B", []⟩
def teamC : Team := ⟨3, "C", []⟩
def teamD : Team := ⟨4, "D", []⟩

def tcAB : TeamContainer :=
  ⟨[teamA, teamB], [(.str "A", 0), (.int 1, 0), (.str "B", 1), (.int 2, 1)]⟩

def tcABCD : TeamContainer :=
  ⟨[teamA, teamB, teamC, teamD],
   [(.str "A", 0), (.int 1, 0), (.str "B", 1), (.int 2, 1),
    (.str "C", 2), (.int 3, 2), (.str "D", 3), (.int 4, 3)]⟩

/-- A 3–1 series between `teamA` and `teamB`. -/
def seriesAB31 : Series := Series.make teamA teamB 3 1 none none none none none none

/-- A 2–2 (tied) series between `teamA` and `teamB`. -/
def seriesTie22 : Series := Series.make teamA teamB 2 2 none none none none none none

/-- The log with `seriesAB31` registered. -/
def scAB31 : SeriesContainer := (SeriesContainer.empty tcAB).register seriesAB31

/-- The log with `seriesTie22` registered. -/
def scTie22 : SeriesContainer := (SeriesContainer.empty tcAB).register seriesTie22

/-- `scAB31` after its one series has been taken (consumed). -/
def scConsumedAB : SeriesContainer :=
  match scAB31.getSeries (.team teamA) (.team teamB) with
  | some (_, sc) => sc
  | none => scAB31

/-- A consumed A-vs-C series inside the 4-team container. -/
def scConsumedAC : SeriesContainer :=
  let sc0 := (SeriesContainer.empty tcABCD).register
    (Series.make teamA teamC 3 1 none none none none none none)
  match sc0.getSeries (.team teamA) (.team teamC) with
  | some (_, sc) => sc
  | none => sc0

/-- A one-slot container object over store `[[1]]`. -/
def dcObj0 : DCObject := ⟨0, [(.str "x", 0)]⟩

/-- A 2–0 series between `teamB` and `teamA` (opposite orientation). -/
def seriesBA20 : Series := Series.make teamB teamA 2 0 none none none none none none

/-- The same recorded series with the two sides' fields exchanged. -/
def swapSeries (s : Series) : Series :=
  ⟨s.team_2, s.team_1, s.rscore_2, s.rscore_1, s.rwin_2, s.rwin_1,
   s.vscore_2, s.vscore_1, s.vwin_2, s.vwin_1, s.exhaused⟩

/-- Specification helper: the groups `unique_indexes` of
`Differentials.combine` builds — one group per nonzero source slot in
first-appearance order, carrying the slot's identifiers in index order. -/
def slotGroups (idx : List (IKey × Nat)) (vals : List Int) : List (Nat × List IKey) :=
  (firstOccurrences (nonzeroSlots idx vals)).map (fun s => (s, idsOf idx s))

/-- A two-slot index binding each team's name and id. -/
def idxAB2 : List (IKey × Nat) :=
  [(.str "A", 0), (.int 1, 0), (.str "B", 1), (.int 2, 1)]

-- ### THEOREMS ### --

/-!
## General list helpers
-/

theorem getD_set {α : Type} (d : α) (l : List α) (i j : Nat) (x : α) :
    (l.set i x).getD j d = if j = i ∧ i < l.length then x else l.getD j d := by
  induction l generalizing i j with
  | nil => simp
  | cons a as ih =>
    cases i with
    | zero =>
      cases j with
      | zero => simp
      | succ j' => simp
    | succ i' =>
      cases j with
      | zero => simp
      | succ j' =>
        simp only [List.set, List.getD_cons_succ, ih, List.length_cons]
        split_ifs with h1 h2 h2 <;> first | rfl | omega

theorem getElem?_set_self {α : Type} (l : List α) (i : Nat) (x : α) (h : i < l.length) :
    (l.set i x)[i]? = some x := by
  induction l generalizing i with
  | nil => simp at h
  | cons a as ih =>
    cases i with
    | zero => simp
    | succ i' => simpa using ih i' (by simpa using h)

theorem storeRead_append_self (st : Store) (v : List Int) :
    storeRead (st ++ [v]) st.length = v := by
  simp [storeRead, List.getD, List.getElem?_append_right]

theorem storeRead_append_left (st : Store) (v : List Int) (r : Nat) (h : r < st.length) :
    storeRead (st ++ [v]) r = storeRead st r := by
  simp [storeRead, List.getD, List.getElem?_append_left h]

/-!
## Claim C1
-/

/-- C1 counterexample: a resolved pairing whose taken result is a 2–2 tie
does **not** leave the winner and loser unresolved — `Matchup.calculate` sets
`winner` to the second team and `loser` to the first (the source's
`... if t1_rs > t2_rs else (team_2, team_1, t2_rs, t1_rs)` has no tie case). -/
theorem tie_sets_winner_to_team_2 :
    (Matchup.calculate scTie22 (some teamA) (some teamB) none).map
        (fun x => (x.1.rscore_1, x.1.rscore_2, x.1.winner, x.1.loser)) =
      some (some 2, some 2, some teamB, some teamA) ∧
    (some teamB ≠ (none : Option Team)) := by
  decide

/-- C1 (amended): whenever `Matchup.calculate` resolves through a taken
series, the `winner` field is the first team exactly when its aligned
primary score is strictly greater and the second team otherwise (so on a
tie the winner is the second team, not `none`); `loser` is the opposite
team, and the `is_winner` flags are the two strict primary-score
comparisons.  The winner is a function of the primary scores alone: no
secondary-score win flag occurs in it. -/
theorem winner_determined_by_primary_scores (sc : SeriesContainer)
    (team_1 team_2 : Team) (df : Option Differentials) (s : Series)
    (hGet : (sc.getSeries (.team team_1) (.team team_2)).map (fun x => x.1)
      = some (some s))
    (hSome : (Matchup.calculate sc (some team_1) (some team_2) df).isSome = true) :
    (Matchup.calculate sc (some team_1) (some team_2) df).map
        (fun x => (x.1.winner, x.1.loser, x.1.is_winner_1, x.1.is_winner_2)) =
      some
        (some (if (if s.team_1 = team_1 then s.rscore_1 else s.rscore_2) >
            (if s.team_1 = team_1 then s.rscore_2 else s.rscore_1) then team_1 else team_2),
         some (if (if s.team_1 = team_1 then s.rscore_1 else s.rscore_2) >
            (if s.team_1 = team_1 then s.rscore_2 else s.rscore_1) then team_2 else team_1),
         some (decide ((if s.team_1 = team_1 then s.rscore_1 else s.rscore_2) >
            (if s.team_1 = team_1 then s.rscore_2 else s.rscore_1))),
         some (decide ((if s.team_1 = team_1 then s.rscore_1 else s.rscore_2) <
            (if s.team_1 = team_1 then s.rscore_2 else s.rscore_1)))) := by
  obtain ⟨out, hE⟩ := Option.isSome_iff_exists.mp hSome
  rw [hE]
  have hE' := hE
  cases hG : sc.getSeries (.team team_1) (.team team_2) with
  | none => rw [hG] at hGet; simp at hGet
  | some pr =>
    obtain ⟨series?, sc'⟩ := pr
    rw [hG] at hGet
    simp only [Option.map_some'] at hGet
    obtain rfl : series? = some s := Option.some.inj hGet
    simp only [Matchup.calculate] at hE'
    rw [hG] at hE'
    simp only [Option.bind_eq_bind, Option.some_bind] at hE'
    obtain ⟨p, hP, hE'⟩ := Option.bind_eq_some.mp hE'
    obtain ⟨res, df'⟩ := p
    obtain rfl := Option.some.inj hE'
    simp only [Matchup.resolveData] at hP
    by_cases hT : s.team_1 = team_1 <;>
      [rw [if_pos hT] at hP; rw [if_neg hT] at hP] <;>
    · obtain ⟨idf1, hI1, hP⟩ := Option.bind_eq_some.mp hP
      obtain ⟨idf2, hI2, hP⟩ := Option.bind_eq_some.mp hP
      cases df with
      | none =>
        simp only [Option.some_bind] at hP
        have hpair := Option.some.inj hP
        simp only [Prod.mk.injEq] at hpair
        obtain ⟨h1, h2⟩ := hpair
        subst h1
        by_cases hW : s.rscore_1 > s.rscore_2 <;>
          by_cases hW' : s.rscore_2 > s.rscore_1 <;>
          simp [hT, hW, hW']
      | some d0 =>
        obtain ⟨d1, hD1, hP⟩ := Option.bind_eq_some.mp hP
        obtain ⟨d2, hD2, hP⟩ := Option.bind_eq_some.mp hP
        simp only [Option.some_bind] at hP
        have hpair := Option.some.inj hP
        simp only [Prod.mk.injEq] at hpair
        obtain ⟨h1, h2⟩ := hpair
        subst h1
        by_cases hW : s.rscore_1 > s.rscore_2 <;>
          by_cases hW' : s.rscore_2 > s.rscore_1 <;>
          simp [hT, hW, hW']

/-- C1 witness: resolving the 3–1 log entry makes `teamA` the winner. -/
theorem winner_determined_by_primary_scores_witness :
    (Matchup.calculate scAB31 (some teamA) (some teamB) none).map
        (fun x => (x.1.winner, x.1.loser, x.1.is_winner_1, x.1.is_winner_2)) =
      some (some teamA, some teamB, some true, some false) :=
  winner_determined_by_primary_scores scAB31 teamA teamB none
    { seriesAB31 with exhaused := true } (by decide) (by decide)

/-!
## Claim C2
-/

/-- C2 counterexample: for scores (1, 2) with `rwin_1` supplied as `True`,
the stored `rwin_1` is `False` (the supplied truthy flag is not preserved),
and with secondary scores (5, 3) and no supplied `vwin_1`, the stored
`vwin_1` is `False` even though `vscore_1 > vscore_2` (the secondary win
flag does not default to its own score comparison). -/
theorem series_win_flags_counterexample :
    (Series.make teamA teamB 1 2 (some true) none (some 5) (some 3) none none).rwin_1
        = false ∧
    (Series.make teamA teamB 1 2 (some true) none (some 5) (some 3) none none).vwin_1
        = false ∧
    (Series.make teamA teamB 1 2 (some true) none (some 5) (some 3) none none).vscore_1
        = 5 ∧
    (Series.make teamA teamB 1 2 (some true) none (some 5) (some 3) none none).vscore_2
        = 3 ∧
    ((5 : Int) > 3) := by
  decide

/-- C2 (amended): the primary win flags always equal the strict comparison
of the primary scores, whatever values are supplied (`rwin_1 or True if
rscore_1 > rscore_2 else False` parses as `(rwin_1 or True) if ... else
False`); each secondary score defaults to the corresponding primary score
when absent or falsy (`0`); and each secondary win flag is the supplied
value when truthy and otherwise defaults to the *primary* win flag, not to
the secondary-score comparison. -/
theorem series_win_flag_semantics (team_1 team_2 : Team) (rscore_1 rscore_2 : Int)
    (rwin_1 rwin_2 : Option Bool) (vscore_1 vscore_2 : Option Int)
    (vwin_1 vwin_2 : Option Bool) :
    (Series.make team_1 team_2 rscore_1 rscore_2 rwin_1 rwin_2 vscore_1 vscore_2
        vwin_1 vwin_2).rwin_1 = decide (rscore_1 > rscore_2) ∧
    (Series.make team_1 team_2 rscore_1 rscore_2 rwin_1 rwin_2 vscore_1 vscore_2
        vwin_1 vwin_2).rwin_2 = decide (rscore_1 < rscore_2) ∧
    (Series.make team_1 team_2 rscore_1 rscore_2 rwin_1 rwin_2 vscore_1 vscore_2
        vwin_1 vwin_2).vwin_1 = (pyTruthyBool vwin_1 || decide (rscore_1 > rscore_2)) ∧
    (Series.make team_1 team_2 rscore_1 rscore_2 rwin_1 rwin_2 vscore_1 vscore_2
        vwin_1 vwin_2).vwin_2 = (pyTruthyBool vwin_2 || decide (rscore_1 < rscore_2)) ∧
    (Series.make team_1 team_2 rscore_1 rscore_2 rwin_1 rwin_2 vscore_1 vscore_2
        vwin_1 vwin_2).vscore_1 = pyOrInt vscore_1 rscore_1 ∧
    (Series.make team_1 team_2 rscore_1 rscore_2 rwin_1 rwin_2 vscore_1 vscore_2
        vwin_1 vwin_2).vscore_2 = pyOrInt vscore_2 rscore_2 := by
  refine ⟨?_, ?_, ?_, ?_, rfl, rfl⟩ <;>
    simp only [Series.make] <;>
    rcases Classical.em (rscore_1 > rscore_2) with h | h <;>
    rcases Classical.em (rscore_1 < rscore_2) with h2 | h2 <;>
    cases hv1 : pyTruthyBool vwin_1 <;> cases hv2 : pyTruthyBool vwin_2 <;>
    simp [h, h2, hv1, hv2]

/-!
## Claim C3
-/

/-- C3 counterexample: with two teams and their only pairing consumed, the
search exhausts both permutations; the seeding after the call is the
original `[A, B]`, not the last examined arrangement `[B, A]` (the source
never assigns `self.seeding_` on the failure path). -/
theorem sort_no_rematches_exhaustion_counterexample :
    (Seeding.sortNoRematches [some teamA, some teamB] scConsumedAB standardPairs).success
        = false ∧
    rematchPermutations 2 = [[0, 1], [1, 0]] ∧
    [1, 0].map (fun i => [some teamA, some teamB].getD i none)
        = [some teamB, some teamA] ∧
    (Seeding.sortNoRematches [some teamA, some teamB] scConsumedAB standardPairs).seeding
        = [some teamA, some teamB] ∧
    ([some teamA, some teamB] : List (Option Team)) ≠ [some teamB, some teamA] := by
  decide

/-- C3 (amended): when `sort_no_rematches` exhausts all permutations without
finding a rematch-free arrangement, the call reports failure (it returns
`None`, distinguishable from the `Seeding` returned on success) and the
seeding is left at its arrangement from before the search — it is never set
to an examined permutation. -/
theorem sort_no_rematches_exhaustion_keeps_seeding (sg : List (Option Team))
    (sc : SeriesContainer) (si : List Nat → List (Nat × Nat))
    (h : (Seeding.sortNoRematches sg sc si).success = false) :
    (Seeding.sortNoRematches sg sc si).seeding = sg := by
  unfold Seeding.sortNoRematches at h ⊢
  cases hL : snrLoop sg si (prevMatchupIndexes sg sc.getPlayedSeries)
      (rematchPermutations sg.length) with
  | none => simp [hL]
  | some sg' => simp [hL] at h

/-- C3 witness: the exhausted two-team search leaves the seeding unchanged. -/
theorem sort_no_rematches_exhaustion_keeps_seeding_witness :
    (Seeding.sortNoRematches [some teamA, some teamB] scConsumedAB standardPairs).seeding
      = [some teamA, some teamB] :=
  sort_no_rematches_exhaustion_keeps_seeding _ _ _ (by decide)

/-!
## Claim C4
-/

/-- C4 counterexample: `copy()` without a default does not produce values
independent of the source — writing `5` through the copy makes the source
container read `5` where it previously read `1` (the new container is built
from `self._values` itself). -/
theorem copy_shares_value_array_counterexample :
    (DCObject.set [[1]] (DCObject.copy dcObj0) (.str "x") 5).bind
        (fun st => DCObject.get st dcObj0 (.str "x")) = some 5 ∧
    DCObject.get [[1]] dcObj0 (.str "x") = some 1 ∧
    ((5 : Int) ≠ 1) := by
  decide

/-- C4 (amended): `copy()` shares the index metadata *and* the value array
with the source: a successful write through the copy is read back through
the source.  `copy(default)` allocates a fresh array in which every value
equals the constant, and writes through that copy leave the source's values
unchanged. -/
theorem copy_semantics (st : Store) (c : DCObject) (d : Int) :
    (∀ k v st', DCObject.set st (DCObject.copy c) k v = some st' →
        DCObject.get st' c k = some v) ∧
    (∀ x ∈ storeRead (DCObject.copyDefault st c d).2
        (DCObject.copyDefault st c d).1.valuesRef, x = d) ∧
    (c.valuesRef < st.length →
      ∀ k v st', DCObject.set (DCObject.copyDefault st c d).2
          (DCObject.copyDefault st c d).1 k v = some st' →
        storeRead st' c.valuesRef = storeRead st c.valuesRef) := by
  refine ⟨?_, ?_, ?_⟩
  · intro k v st' hset
    unfold DCObject.set DCObject.copy at hset
    cases hI : DCObject.getTeamIndex ⟨c.valuesRef, c.indexes⟩ k with
    | none => simp [hI] at hset
    | some i =>
      simp only [hI, Option.bind_eq_bind, Option.some_bind] at hset
      split at hset
      case isFalse => simp at hset
      case isTrue hlen =>
        have hst' : st' = st.set c.valuesRef ((storeRead st c.valuesRef).set i v) := by
          cases hset; rfl
        have href : c.valuesRef < st.length := by
          by_contra hge
          have hnil : storeRead st c.valuesRef = [] := by
            unfold storeRead
            exact List.getD_eq_default _ _ (by omega)
          rw [hnil] at hlen
          simp at hlen
        have hI' : c.getTeamIndex k = some i := hI
        simp only [DCObject.get, hI', Option.bind_eq_bind, Option.some_bind, hst']
        have hrd : storeRead (st.set c.valuesRef ((storeRead st c.valuesRef).set i v))
            c.valuesRef = (storeRead st c.valuesRef).set i v := by
          simp [storeRead, getD_set, href]
        rw [hrd]
        exact getElem?_set_self _ _ _ hlen
  · intro x hx
    rw [show (DCObject.copyDefault st c d).1.valuesRef = st.length from rfl] at hx
    rw [show (DCObject.copyDefault st c d).2
        = st ++ [(storeRead st c.valuesRef).map (fun _ => d)] from rfl] at hx
    rw [storeRead_append_self] at hx
    obtain ⟨y, _, rfl⟩ := List.mem_map.mp hx
    rfl
  · intro href k v st' hset
    unfold DCObject.set at hset
    cases hI : DCObject.getTeamIndex (DCObject.copyDefault st c d).1 k with
    | none => simp [hI] at hset
    | some i =>
      simp only [hI, Option.bind_eq_bind, Option.some_bind] at hset
      split at hset
      case isFalse => simp at hset
      case isTrue hlen =>
        have hst' : st' = (DCObject.copyDefault st c d).2.set
            (DCObject.copyDefault st c d).1.valuesRef
            ((storeRead (DCObject.copyDefault st c d).2
              (DCObject.copyDefault st c d).1.valuesRef).set i v) := by
          cases hset; rfl
        rw [hst']
        show storeRead ((st ++ [(storeRead st c.valuesRef).map (fun _ => d)]).set st.length
          ((storeRead (st ++ [(storeRead st c.valuesRef).map (fun _ => d)])
            st.length).set i v)) c.valuesRef = storeRead st c.valuesRef
        unfold storeRead
        rw [getD_set, if_neg]
        · exact storeRead_append_left st _ _ href
        · rintro ⟨h1, _⟩
          omega

/-- C4 witness: over the one-array store `[[1]]`, a write through
`copy(7)`'s fresh array leaves the source array `[1]` unchanged. -/
theorem copy_semantics_witness :
    storeRead [[1], [9]] dcObj0.valuesRef = storeRead [[1]] dcObj0.valuesRef :=
  (copy_semantics [[1]] dcObj0 7).2.2 (by decide) (.str "x") 9 [[1], [9]] (by decide)

/-!
## Claim C7
-/

theorem takeFirstUnexhausted_all_exhausted (L : List Series) :
    takeFirstUnexhausted (L.map (fun s => { s with exhaused := true })) = none := by
  induction L with
  | nil => rfl
  | cons s rest ih => simp [takeFirstUnexhausted, ih]

theorem takeFirstUnexhausted_skip (L1 : List Series) (s : Series) (rest : List Series)
    (hs : s.exhaused = false) :
    takeFirstUnexhausted (L1.map (fun t => { t with exhaused := true }) ++ s :: rest) =
      some ({ s with exhaused := true },
        (L1 ++ [s]).map (fun t => { t with exhaused := true }) ++ rest) := by
  induction L1 with
  | nil => simp [takeFirstUnexhausted, hs]
  | cons t ts ih => simp [takeFirstUnexhausted, ih]

/-- In the two-entry pair index built by the first registration, both
orientations of the pair resolve to bucket `0`. -/
theorem pair_index_lookup (A B : Team) (m : Int × Int)
    (hm : m = (A.id, B.id) ∨ m = (B.id, A.id))
    (k : Int × Int) (hk : k = (A.id, B.id) ∨ k = (B.id, A.id)) :
    dictLookup (dictInsert (dictInsert ([] : List ((Int × Int) × Nat)) m 0)
      (m.2, m.1) 0) k = some 0 := by
  rcases hm with rfl | rfl <;> rcases hk with rfl | rfl <;>
    by_cases hAB : A.id = B.id <;>
    simp [dictInsert, dictLookup, hAB]

/-- Registering further series of the same pair appends them to the pair's
bucket in order. -/
theorem register_fold_same_pair (tc : TeamContainer) (A B : Team)
    (idx : List ((Int × Int) × Nat))
    (hidx : ∀ k : Int × Int, (k = (A.id, B.id) ∨ k = (B.id, A.id)) →
      dictLookup idx k = some 0)
    (L' : List Series) (acc : List Series)
    (hL' : ∀ s ∈ L', (s.team_1 = A ∧ s.team_2 = B) ∨ (s.team_1 = B ∧ s.team_2 = A)) :
    L'.foldl SeriesContainer.register ⟨tc, idx, [acc]⟩ = ⟨tc, idx, [acc ++ L']⟩ := by
  induction L' generalizing acc with
  | nil => simp
  | cons s rest ih =>
    have hs := hL' s (by simp)
    have hlook : dictLookup idx (s.team_1.id, s.team_2.id) = some 0 := by
      apply hidx
      rcases hs with ⟨h1, h2⟩ | ⟨h1, h2⟩ <;> simp [h1, h2]
    have hstep : SeriesContainer.register ⟨tc, idx, [acc]⟩ s = ⟨tc, idx, [acc ++ [s]]⟩ := by
      simp [SeriesContainer.register, hlook, List.getD]
    simp only [List.foldl_cons, hstep]
    rw [ih (acc ++ [s]) (fun t ht => hL' t (by simp [ht]))]
    simp

/-- Take calls against a single-bucket log: with an exhausted prefix and an
unexhausted suffix, each call returns the next suffix entry in order, and
one further call returns `None`. -/
theorem takeSeq_fold (tc : TeamContainer) (A B : Team)
    (idx : List ((Int × Int) × Nat))
    (hidx : ∀ k : Int × Int, (k = (A.id, B.id) ∨ k = (B.id, A.id)) →
      dictLookup idx k = some 0)
    (L2 : List Series) (L1ex : List Series)
    (qs : List (TeamIdent × TeamIdent))
    (hL2 : ∀ s ∈ L2, ((s.team_1 = A ∧ s.team_2 = B) ∨ (s.team_1 = B ∧ s.team_2 = A)) ∧
      s.exhaused = false)
    (hqs : qs.length = L2.length + 1)
    (hq : ∀ q ∈ qs, (tc.get q.1 = some A ∧ tc.get q.2 = some B) ∨
                    (tc.get q.1 = some B ∧ tc.get q.2 = some A)) :
    (SeriesContainer.takeSeq
        ⟨tc, idx, [L1ex.map (fun t => { t with exhaused := true }) ++ L2]⟩ qs).map
      (fun x => x.1) =
      some (L2.map (fun s => some { s with exhaused := true }) ++ [none]) := by
  induction L2 generalizing L1ex qs with
  | nil =>
    match qs, hqs with
    | [q], _ =>
      obtain ⟨q1, q2⟩ := q
      have hq1 := hq (q1, q2) (by simp)
      have hlook := hidx (A.id, B.id) (by simp)
      have hlook' := hidx (B.id, A.id) (by simp)
      rcases hq1 with ⟨h1, h2⟩ | ⟨h1, h2⟩ <;>
        simp [SeriesContainer.takeSeq, SeriesContainer.getSeries, h1, h2, hlook, hlook',
          List.getD, takeFirstUnexhausted_all_exhausted]
  | cons s rest ih =>
    match qs, hqs with
    | q :: qs', hqs =>
      obtain ⟨q1, q2⟩ := q
      have hq1 := hq (q1, q2) (by simp)
      have hs := hL2 s (by simp)
      have hlook := hidx (A.id, B.id) (by simp)
      have hlook' := hidx (B.id, A.id) (by simp)
      have hrec := ih (L1ex ++ [s]) qs'
        (fun t ht => hL2 t (by simp [ht]))
        (by simpa using hqs)
        (fun p hp => hq p (by simp [hp]))
      simp only [List.map_append, List.map_cons, List.map_nil, List.append_assoc,
        List.singleton_append, List.nil_append] at hrec
      cases hcall : SeriesContainer.takeSeq
          ⟨tc, idx, [L1ex.map (fun t => { t with exhaused := true }) ++
            ({ s with exhaused := true } :: rest)]⟩ qs' with
      | none =>
        rw [hcall] at hrec
        simp at hrec
      | some pr =>
        rw [hcall] at hrec
        simp only [Option.map_some'] at hrec
        replace hrec := Option.some.inj hrec
        rcases hq1 with ⟨h1, h2⟩ | ⟨h1, h2⟩ <;>
          simp [SeriesContainer.takeSeq, SeriesContainer.getSeries, h1, h2, hlook, hlook',
            List.getD, takeFirstUnexhausted_skip _ _ _ hs.2, hcall, hrec]

/-- C7: with `N` series registered for the pair `(A, B)` (each in either
orientation, none yet consumed), a sequence of `N + 1` take calls on that
pair — each call in either orientation, under any resolvable identifiers —
returns the `N` registered entries in registration order, each marked
consumed, and the final call returns `None` (an empty result, not an
error). -/
theorem take_exhausts_in_registration_order (tc : TeamContainer) (A B : Team)
    (L : List Series) (qs : List (TeamIdent × TeamIdent))
    (hL : ∀ s ∈ L, ((s.team_1 = A ∧ s.team_2 = B) ∨ (s.team_1 = B ∧ s.team_2 = A)) ∧
      s.exhaused = false)
    (hqs : qs.length = L.length + 1)
    (hq : ∀ q ∈ qs, (tc.get q.1 = some A ∧ tc.get q.2 = some B) ∨
                    (tc.get q.1 = some B ∧ tc.get q.2 = some A)) :
    ((L.foldl SeriesContainer.register (SeriesContainer.empty tc)).takeSeq qs).map
        (fun x => x.1) =
      some (L.map (fun s => some { s with exhaused := true }) ++ [none]) := by
  cases L with
  | nil =>
    match qs, hqs with
    | [q], _ =>
      obtain ⟨q1, q2⟩ := q
      have hq1 := hq (q1, q2) (by simp)
      rcases hq1 with ⟨h1, h2⟩ | ⟨h1, h2⟩ <;>
        simp [SeriesContainer.takeSeq, SeriesContainer.getSeries, SeriesContainer.empty,
          h1, h2, dictLookup]
  | cons s0 L' =>
    have hs0 := (hL s0 (by simp)).1
    set m : Int × Int := (s0.team_1.id, s0.team_2.id) with hm
    have hidx : ∀ k : Int × Int, (k = (A.id, B.id) ∨ k = (B.id, A.id)) →
        dictLookup (dictInsert (dictInsert ([] : List ((Int × Int) × Nat)) m 0)
          (m.2, m.1) 0) k = some 0 := by
      intro k hk
      refine pair_index_lookup A B m ?_ k hk
      rcases hs0 with ⟨h1, h2⟩ | ⟨h1, h2⟩ <;> simp [hm, h1, h2]
    have hreg0 : (SeriesContainer.empty tc).register s0 =
        ⟨tc, dictInsert (dictInsert [] m 0) (m.2, m.1) 0, [[s0]]⟩ := by
      simp [SeriesContainer.register, SeriesContainer.empty, dictLookup]
    rw [List.foldl_cons, hreg0]
    rw [register_fold_same_pair tc A B _ hidx L' [s0] (fun t ht => (hL t (by simp [ht])).1)]
    have hfold := takeSeq_fold tc A B _ hidx (s0 :: L') [] qs hL hqs hq
    simpa using hfold

/-- C7 witness: two registered series for the pair, taken through three
calls with mixed orientations and identifier kinds. -/
theorem take_exhausts_in_registration_order_witness :
    ((([seriesAB31, seriesBA20].foldl SeriesContainer.register
        (SeriesContainer.empty tcAB)).takeSeq
        [(.team teamA, .team teamB), (.str "B", .str "A"), (.int 1, .int 2)]).map
      (fun x => x.1)) =
      some ([seriesAB31, seriesBA20].map (fun s => some { s with exhaused := true })
        ++ [none]) :=
  take_exhausts_in_registration_order tcAB teamA teamB _ _
    (by decide) (by decide) (by decide)

/-!
## Claim C8
-/

theorem dictInsert_not_mem {K V : Type} [DecidableEq K] (d : List (K × V)) (k : K) (v : V)
    (h : ∀ p ∈ d, p.1 ≠ k) : dictInsert d k v = d ++ [(k, v)] := by
  have hany : (d.any (fun p => p.1 = k)) = false := by
    rw [List.any_eq_false]
    intro p hp
    simpa using h p hp
  unfold dictInsert
  rw [hany]
  simp

/-- One loop iteration of `BracketModel.calculate` records the node's result
under its key and conjoins the winner test onto the completion flag. -/
theorem bracket_step_shape (tc : TeamContainer)
    (st : List (Nat × NodeResult) × SeriesContainer × Option Differentials × Bool)
    (kn : Nat × BracketNode)
    (st1 : List (Nat × NodeResult) × SeriesContainer × Option Differentials × Bool)
    (h : BracketModel.step tc st kn = some st1) :
    ∃ nr sc' df', st1 = (dictInsert st.1 kn.1 nr, sc', df',
      st.2.2.2 && (nodeWinner nr).isSome) := by
  obtain ⟨results, sc, df, c⟩ := st
  cases hn : kn.2 with
  | matchupNode f1 f2 =>
    simp only [BracketModel.step, hn] at h
    obtain ⟨x, hx, h⟩ := Option.bind_eq_some.mp h
    obtain ⟨r', sc', df'⟩ := x
    obtain rfl := (Option.some.inj h).symm
    exact ⟨.m r', sc', df', rfl⟩
  | matchSetNode fsg si =>
    simp only [BracketModel.step, hn] at h
    obtain ⟨x, hx, h⟩ := Option.bind_eq_some.mp h
    obtain ⟨r', sc', df'⟩ := x
    obtain rfl := (Option.some.inj h).symm
    exact ⟨.ms r', sc', df', rfl⟩

/-- Invariant of the node loop: under fresh, pairwise-distinct keys the
recorded results extend the accumulator by exactly one entry per node, and
the completion flag is the starting flag conjoined with the winner test of
every newly recorded outcome. -/
theorem bracket_fold_invariant (tc : TeamContainer) (nodes : List (Nat × BracketNode))
    (r0 : List (Nat × NodeResult)) (sc0 : SeriesContainer) (df0 : Option Differentials)
    (c0 : Bool)
    (out : List (Nat × NodeResult) × SeriesContainer × Option Differentials × Bool)
    (hdisj : ∀ k ∈ nodes.map (fun kn => kn.1), ∀ p ∈ r0, p.1 ≠ k)
    (hnodup : (nodes.map (fun kn => kn.1)).Nodup)
    (hfold : nodes.foldlM (BracketModel.step tc) (r0, sc0, df0, c0) = some out) :
    ∃ dl, out.1 = r0 ++ dl ∧ dl.map (fun kr => kr.1) = nodes.map (fun kn => kn.1) ∧
      out.2.2.2 = (c0 && dl.all (fun kr => (nodeWinner kr.2).isSome)) := by
  induction nodes generalizing r0 sc0 df0 c0 with
  | nil =>
    simp only [List.foldlM_nil] at hfold
    obtain rfl := Option.some.inj hfold
    exact ⟨[], by simp, rfl, by simp⟩
  | cons kn rest ih =>
    have hnodup' : (kn.1 :: rest.map (fun kn => kn.1)).Nodup := by simpa using hnodup
    rw [List.foldlM_cons] at hfold
    obtain ⟨st1, hstep, hrest⟩ := Option.bind_eq_some.mp hfold
    obtain ⟨nr, sc', df', rfl⟩ := bracket_step_shape tc _ kn st1 hstep
    have hins : dictInsert r0 kn.1 nr = r0 ++ [(kn.1, nr)] :=
      dictInsert_not_mem r0 kn.1 nr (fun p hp => hdisj kn.1 (by simp) p hp)
    rw [hins] at hrest
    have hdisj' : ∀ k ∈ rest.map (fun kn => kn.1), ∀ p ∈ r0 ++ [(kn.1, nr)], p.1 ≠ k := by
      intro k hk p hp
      rcases List.mem_append.mp hp with hp | hp
      · exact hdisj k (by simp [hk]) p hp
      · simp only [List.mem_singleton] at hp
        subst hp
        intro he
        refine (List.nodup_cons.mp hnodup').1 ?_
        rw [he]
        simpa using hk
    obtain ⟨dl, h1, h2, h3⟩ := ih (r0 ++ [(kn.1, nr)]) sc' df'
      (c0 && (nodeWinner nr).isSome) hdisj' (List.nodup_cons.mp hnodup').2 hrest
    refine ⟨(kn.1, nr) :: dl, ?_, ?_, ?_⟩
    · rw [h1]; simp
    · simp [h2]
    · rw [h3, List.all_cons, Bool.and_assoc]

/-- C8: after `BracketModel.calculate` over nodes with pairwise-distinct
keys, the overall `complete` flag is `true` exactly when every recorded
outcome passes the winner test — the `winner` field for a `Matchup` node,
the first winners-seeding slot (only the first) for a `MatchSet` node. -/
theorem complete_iff_all_winners_resolved (nodes : List (Nat × BracketNode))
    (tc : TeamContainer) (sc : SeriesContainer) (df : Option Differentials)
    (out : List (Nat × NodeResult) × SeriesContainer × Option Differentials × Bool)
    (hnodup : (nodes.map (fun kn => kn.1)).Nodup)
    (hcalc : BracketModel.calculate nodes tc sc df = some out) :
    (out.2.2.2 = true ↔ ∀ kr ∈ out.1, (nodeWinner kr.2).isSome = true) := by
  obtain ⟨dl, h1, h2, h3⟩ := bracket_fold_invariant tc nodes [] sc df true out
    (by simp) hnodup hcalc
  rw [h1, h3]
  simp [List.all_eq_true]

/-- C8 witness: a single matchup node with unresolved team fetchers computes
an outcome with no winner, and the completion flag is `false` accordingly. -/
theorem complete_iff_all_winners_resolved_witness :
    ((([(0, NodeResult.m (MatchupResult.identityOnly none none))],
        SeriesContainer.empty tcAB, (none : Option Differentials), false) :
      List (Nat × NodeResult) × SeriesContainer × Option Differentials × Bool).2.2.2 = true ↔
      ∀ kr ∈ (([(0, NodeResult.m (MatchupResult.identityOnly none none))],
        SeriesContainer.empty tcAB, (none : Option Differentials), false) :
      List (Nat × NodeResult) × SeriesContainer × Option Differentials × Bool).1,
        (nodeWinner kr.2).isSome = true) :=
  complete_iff_all_winners_resolved
    [(0, .matchupNode (fun _ => none) (fun _ => none))] tcAB
    (SeriesContainer.empty tcAB) none _ (by simp) rfl

/-!
## Claim C10
-/

theorem idx_lookup_none (a b : Int) (k : Int × Int) (h1 : k ≠ (a, b)) (h2 : k ≠ (b, a)) :
    dictLookup (dictInsert (dictInsert ([] : List ((Int × Int) × Nat)) (a, b) 0)
      (b, a) 0) k = none := by
  have h1' : ¬((a, b) = k) := fun he => h1 he.symm
  have h2' : ¬((b, a) = k) := fun he => h2 he.symm
  by_cases hab : ((a, b) : Int × Int) = (b, a) <;>
    simp [dictInsert, dictLookup, List.find?, hab, h1', h2']

/-- Aligning a series stored with `team_1 = B, team_2 = A` for the matchup
`(A, B)` gives the same computation as aligning its side-swapped form stored
as `(A, B)`: the `series.team_1 == team_1` test selects the swapped data
tuple in the first case and the straight tuple in the second. -/
theorem resolveData_mk_swap (A B : Team) (tc : TeamContainer) (df : Option Differentials)
    (r1 r2 v1 v2 : Int) (rw1 rw2 vw1 vw2 : Bool) (e : Bool) (hne : A ≠ B) :
    Matchup.resolveData A B ⟨B, A, r1, r2, rw1, rw2, v1, v2, vw1, vw2, e⟩ tc df =
    Matchup.resolveData A B ⟨A, B, r2, r1, rw2, rw1, v2, v1, vw2, vw1, e⟩ tc df := by
  have hBA : ¬(B = A) := fun he => hne he.symm
  simp only [Matchup.resolveData]
  simp [hBA]

/-- C10: resolving the matchup `(A, B)` against a result registered in the
opposite orientation `(B, A)` yields the same outcome as resolving it
against the side-swapped record registered as `(A, B)` — the stored sides'
score and flag data are exchanged before differentials, winner and outcome
fields are computed. -/
theorem resolve_against_reversed_registration (tc : TeamContainer) (A B : Team)
    (r1 r2 v1 v2 : Int) (rw1 rw2 vw1 vw2 : Bool) (e : Bool)
    (df : Option Differentials) (hne : A ≠ B) :
    (Matchup.calculate ((SeriesContainer.empty tc).register
        ⟨B, A, r1, r2, rw1, rw2, v1, v2, vw1, vw2, e⟩) (some A) (some B) df).map
        (fun x => x.1) =
      (Matchup.calculate ((SeriesContainer.empty tc).register
          (swapSeries ⟨B, A, r1, r2, rw1, rw2, v1, v2, vw1, vw2, e⟩))
          (some A) (some B) df).map (fun x => x.1) := by
  have hreg1 : (SeriesContainer.empty tc).register
      ⟨B, A, r1, r2, rw1, rw2, v1, v2, vw1, vw2, e⟩ =
      ⟨tc, dictInsert (dictInsert [] (B.id, A.id) 0) (A.id, B.id) 0,
        [[⟨B, A, r1, r2, rw1, rw2, v1, v2, vw1, vw2, e⟩]]⟩ := by
    simp [SeriesContainer.register, SeriesContainer.empty, dictLookup]
  have hreg2 : (SeriesContainer.empty tc).register
      (swapSeries ⟨B, A, r1, r2, rw1, rw2, v1, v2, vw1, vw2, e⟩) =
      ⟨tc, dictInsert (dictInsert [] (A.id, B.id) 0) (B.id, A.id) 0,
        [[⟨A, B, r2, r1, rw2, rw1, v2, v1, vw2, vw1, e⟩]]⟩ := by
    simp [SeriesContainer.register, SeriesContainer.empty, dictLookup, swapSeries]
  rw [hreg1, hreg2]
  cases hA : tc.get (.team A) with
  | none =>
    simp [Matchup.calculate, SeriesContainer.getSeries, hA]
  | some TA =>
    cases hB : tc.get (.team B) with
    | none =>
      simp [Matchup.calculate, SeriesContainer.getSeries, hA, hB]
    | some TB =>
      by_cases hk : (TA.id, TB.id) = (A.id, B.id) ∨ (TA.id, TB.id) = (B.id, A.id)
      · have hl1 : dictLookup (dictInsert (dictInsert
            ([] : List ((Int × Int) × Nat)) (B.id, A.id) 0) (A.id, B.id) 0)
            (TA.id, TB.id) = some 0 :=
          pair_index_lookup A B (B.id, A.id) (by simp) _ hk
        have hl2 : dictLookup (dictInsert (dictInsert
            ([] : List ((Int × Int) × Nat)) (A.id, B.id) 0) (B.id, A.id) 0)
            (TA.id, TB.id) = some 0 :=
          pair_index_lookup A B (A.id, B.id) (by simp) _ hk
        cases e with
        | true =>
          simp [Matchup.calculate, SeriesContainer.getSeries, hA, hB, hl1, hl2,
            takeFirstUnexhausted, List.getD]
        | false =>
          simp only [Matchup.calculate, SeriesContainer.getSeries, hA, hB, hl1, hl2,
            Option.bind_eq_bind, Option.some_bind, List.getD, List.getElem?_cons_zero,
            Option.getD_some, takeFirstUnexhausted, Bool.false_eq_true, if_false]
          rw [resolveData_mk_swap A B tc df r1 r2 v1 v2 rw1 rw2 vw1 vw2 true hne]
          cases hR : Matchup.resolveData A B
              ⟨A, B, r2, r1, rw2, rw1, v2, v1, vw2, vw1, true⟩ tc df with
          | none => simp [hR]
          | some p =>
            obtain ⟨res, dfv⟩ := p
            simp [hR]
      · push_neg at hk
        have hl1 : dictLookup (dictInsert (dictInsert
            ([] : List ((Int × Int) × Nat)) (B.id, A.id) 0) (A.id, B.id) 0)
            (TA.id, TB.id) = none := by
          have h := idx_lookup_none B.id A.id (TA.id, TB.id) hk.2 hk.1
          simpa using h
        have hl2 : dictLookup (dictInsert (dictInsert
            ([] : List ((Int × Int) × Nat)) (A.id, B.id) 0) (B.id, A.id) 0)
            (TA.id, TB.id) = none := by
          have h := idx_lookup_none A.id B.id (TA.id, TB.id) hk.1 hk.2
          simpa using h
        simp [Matchup.calculate, SeriesContainer.getSeries, hA, hB, hl1, hl2]

/-- C10 witness: a concrete 1–3 result registered as `(B, A)` resolves for
the pairing `(A, B)` exactly like its side-swapped registration. -/
theorem resolve_against_reversed_registration_witness :
    (Matchup.calculate ((SeriesContainer.empty tcAB).register
        ⟨teamB, teamA, 1, 3, false, true, 1, 3, false, true, false⟩)
        (some teamA) (some teamB) none).map (fun x => x.1) =
      (Matchup.calculate ((SeriesContainer.empty tcAB).register
          (swapSeries ⟨teamB, teamA, 1, 3, false, true, 1, 3, false, true, false⟩))
          (some teamA) (some teamB) none).map (fun x => x.1) :=
  resolve_against_reversed_registration tcAB teamA teamB 1 3 1 3 false true false true
    false none (by decide)

/-!
## Claims C6 and C9: the combine machinery
-/

theorem mem_foldl_firstOccurrences (l : List Nat) (acc : List Nat) (x : Nat) :
    x ∈ l.foldl (fun acc x => if x ∈ acc then acc else acc ++ [x]) acc ↔
      x ∈ acc ∨ x ∈ l := by
  induction l generalizing acc with
  | nil => simp
  | cons y ys ih =>
    simp only [List.foldl_cons]
    by_cases hy : y ∈ acc
    · rw [if_pos hy, ih]
      constructor
      · rintro (h | h)
        · exact Or.inl h
        · exact Or.inr (List.mem_cons_of_mem _ h)
      · rintro (h | h)
        · exact Or.inl h
        · rcases List.mem_cons.mp h with rfl | h
          · exact Or.inl hy
          · exact Or.inr h
    · rw [if_neg hy, ih]
      constructor
      · rintro (h | h)
        · rcases List.mem_append.mp h with h | h
          · exact Or.inl h
          · simp only [List.mem_singleton] at h
            exact Or.inr (by simp [h])
        · exact Or.inr (List.mem_cons_of_mem _ h)
      · rintro (h | h)
        · exact Or.inl (List.mem_append.mpr (Or.inl h))
        · rcases List.mem_cons.mp h with rfl | h
          · exact Or.inl (List.mem_append.mpr (Or.inr (by simp)))
          · exact Or.inr h

theorem mem_firstOccurrences (l : List Nat) (x : Nat) :
    x ∈ firstOccurrences l ↔ x ∈ l := by
  unfold firstOccurrences
  rw [mem_foldl_firstOccurrences]
  simp

theorem nodup_foldl_firstOccurrences (l : List Nat) (acc : List Nat) (h : acc.Nodup) :
    (l.foldl (fun acc x => if x ∈ acc then acc else acc ++ [x]) acc).Nodup := by
  induction l generalizing acc with
  | nil => simpa
  | cons y ys ih =>
    simp only [List.foldl_cons]
    by_cases hy : y ∈ acc
    · rw [if_pos hy]
      exact ih acc h
    · rw [if_neg hy]
      refine ih (acc ++ [y]) ?_
      refine h.append (List.nodup_singleton y) ?_
      intro a ha hay
      simp only [List.mem_singleton] at hay
      subst hay
      exact hy ha

theorem firstOccurrences_nodup (l : List Nat) : (firstOccurrences l).Nodup :=
  nodup_foldl_firstOccurrences l [] List.nodup_nil

theorem firstOccurrences_append (l : List Nat) (x : Nat) :
    firstOccurrences (l ++ [x]) =
      if x ∈ firstOccurrences l then firstOccurrences l
      else firstOccurrences l ++ [x] := by
  simp [firstOccurrences, List.foldl_append]

theorem nonzeroSlots_append (idx : List (IKey × Nat)) (p : IKey × Nat) (vals : List Int) :
    nonzeroSlots (idx ++ [p]) vals =
      nonzeroSlots idx vals ++ (if vals.getD p.2 0 = 0 then [] else [p.2]) := by
  unfold nonzeroSlots
  rw [List.map_append, List.filter_append]
  congr 1
  simp only [List.map_cons, List.map_nil, List.filter_cons, List.filter_nil]
  by_cases hz : vals.getD p.2 0 = 0
  · rw [if_pos hz, if_neg (by simpa using hz)]
  · rw [if_neg hz, if_pos (by simpa using hz)]

theorem idsOf_append (idx : List (IKey × Nat)) (p : IKey × Nat) (s : Nat) :
    idsOf (idx ++ [p]) s = idsOf idx s ++ (if p.2 = s then [p.1] else []) := by
  by_cases hs : p.2 = s <;>
    simp [idsOf, List.filter_append, hs]

theorem idsOf_nil_of_not_mem (idx : List (IKey × Nat)) (s : Nat)
    (h : s ∉ idx.map (fun p => p.2)) : idsOf idx s = [] := by
  unfold idsOf
  rw [List.filter_eq_nil_iff.mpr, List.map_nil]
  intro p hp
  simp only [decide_eq_true_eq]
  intro he
  exact h (List.mem_map.mpr ⟨p, hp, he⟩)

theorem buildUnique_step (idx : List (IKey × Nat)) (vals : List Int) (k : IKey) (i : Nat) :
    (if vals.getD i 0 = 0 then slotGroups idx vals
     else addToGroup (slotGroups idx vals) i k) = slotGroups (idx ++ [(k, i)]) vals := by
  by_cases hz : vals.getD i 0 = 0
  · rw [if_pos hz]
    unfold slotGroups
    rw [nonzeroSlots_append, if_pos hz, List.append_nil]
    refine (List.map_congr_left ?_).symm
    intro s hs
    have hsi : i ≠ s := by
      intro he
      subst he
      have := (mem_firstOccurrences _ _).mp hs
      simp only [nonzeroSlots, List.mem_filter, decide_eq_true_eq] at this
      exact this.2 hz
    rw [idsOf_append]
    simp [hsi]
  · rw [if_neg hz]
    unfold slotGroups
    rw [nonzeroSlots_append, if_neg hz, firstOccurrences_append]
    by_cases hmem : i ∈ firstOccurrences (nonzeroSlots idx vals)
    · rw [if_pos hmem]
      unfold addToGroup
      rw [if_pos]
      · rw [List.map_map]
        refine List.map_congr_left ?_
        intro s hs
        by_cases hsi : s = i
        · subst hsi
          simp [idsOf_append]
        · simp only [Function.comp]
          rw [idsOf_append]
          simp [hsi, Ne.symm hsi]
      · rw [List.any_eq_true]
        refine ⟨(i, idsOf idx i), List.mem_map.mpr ⟨i, hmem, rfl⟩, by simp⟩
    · rw [if_neg hmem]
      unfold addToGroup
      rw [if_neg]
      · rw [List.map_append]
        congr 1
        · refine List.map_congr_left ?_
          intro s hs
          have hsi : s ≠ i := fun he => hmem (he ▸ hs)
          rw [idsOf_append]
          simp [Ne.symm hsi]
        · have hnil : idsOf idx i = [] := by
            refine idsOf_nil_of_not_mem idx i ?_
            intro hmem2
            exact hmem ((mem_firstOccurrences _ _).mpr
              (by simp only [nonzeroSlots, List.mem_filter, decide_eq_true_eq]
                  exact ⟨hmem2, hz⟩))
          simp [idsOf_append, hnil]
      · intro hany
        rw [List.any_eq_true] at hany
        obtain ⟨g, hgmem, hgi⟩ := hany
        obtain ⟨s, hs, rfl⟩ := List.mem_map.mp hgmem
        simp only [decide_eq_true_eq] at hgi
        have hsi : s = i := hgi
        exact hmem (hsi ▸ hs)

theorem buildUnique_eq (idx : List (IKey × Nat)) (vals : List Int) :
    buildUnique idx vals = slotGroups idx vals := by
  suffices h : ∀ Q, List.foldl
      (fun gs p => if vals.getD p.2 0 = 0 then gs else addToGroup gs p.2 p.1)
      (slotGroups Q vals) idx = slotGroups (Q ++ idx) vals by
    have h0 := h []
    simpa [buildUnique, slotGroups, firstOccurrences, nonzeroSlots] using h0
  induction idx with
  | nil => simp
  | cons p rest ih =>
    intro Q
    obtain ⟨k, i⟩ := p
    simp only [List.foldl_cons]
    rw [buildUnique_step Q vals k i]
    rw [ih (Q ++ [(k, i)])]
    simp

theorem dictLookup_lt {n : Nat} (idx : List (IKey × Nat)) (k : IKey) (t : Nat)
    (hidx : ∀ p ∈ idx, p.2 < n) (h : dictLookup idx k = some t) : t < n := by
  unfold dictLookup at h
  cases hf : idx.find? (fun p => p.1 = k) with
  | none => rw [hf] at h; simp at h
  | some p =>
    rw [hf] at h
    simp only [Option.map_some'] at h
    obtain rfl := Option.some.inj h
    exact hidx p (List.mem_of_find?_eq_some hf)

theorem applyGroups_length (insideIdx : List (IKey × Nat)) (outsideVals : List Int)
    (gs : List (Nat × List IKey)) (insideVals : List Int) :
    (applyGroups insideVals insideIdx outsideVals gs).length = insideVals.length := by
  induction gs generalizing insideVals with
  | nil => rfl
  | cons g rest ih =>
    obtain ⟨i, ids⟩ := g
    simp only [applyGroups]
    cases hf : ids.findSome? (fun k => dictLookup insideIdx k) with
    | none => simpa [hf] using ih insideVals
    | some t =>
      simp only [hf]
      rw [ih]
      simp

theorem applyGroups_getD (insideIdx : List (IKey × Nat)) (outsideVals : List Int)
    (gs : List (Nat × List IKey)) (insideVals : List Int) (t : Nat)
    (hidx : ∀ p ∈ insideIdx, p.2 < insideVals.length) :
    (applyGroups insideVals insideIdx outsideVals gs).getD t 0 =
      insideVals.getD t 0 +
        ((gs.filter (fun g => g.2.findSome? (fun k => dictLookup insideIdx k) = some t)).map
          (fun g => outsideVals.getD g.1 0)).sum := by
  induction gs generalizing insideVals with
  | nil => simp [applyGroups]
  | cons g rest ih =>
    obtain ⟨i, ids⟩ := g
    simp only [applyGroups]
    cases hf : ids.findSome? (fun k => dictLookup insideIdx k) with
    | none =>
      rw [ih insideVals hidx]
      rw [List.filter_cons_of_neg (by simp [hf])]
    | some t' =>
      have ht' : t' < insideVals.length := by
        obtain ⟨k, _, hk⟩ := List.exists_of_findSome?_eq_some hf
        exact dictLookup_lt insideIdx k t' hidx hk
      have hidx' : ∀ p ∈ insideIdx, p.2 <
          (insideVals.set t' (insideVals.getD t' 0 + outsideVals.getD i 0)).length := by
        simpa using hidx
      rw [ih _ hidx']
      by_cases hT : t = t'
      · subst hT
        rw [List.filter_cons_of_pos (by simp [hf])]
        rw [getD_set, if_pos ⟨rfl, ht'⟩]
        simp only [List.map_cons, List.sum_cons]
        ring
      · rw [List.filter_cons_of_neg (by simp [hf, Ne.symm hT])]
        rw [getD_set, if_neg (by rintro ⟨h1, _⟩; exact hT h1)]

/-- C6: each track merge of `combine` adds, at every target slot `t`, the
sum over source competitors (slots) holding a nonzero value whose
first-matching identifier resolves to `t` — once per competitor. -/
theorem combine_adds_once_per_competitor (inside outside : DifferentialContainer) (t : Nat)
    (hidx : ∀ p ∈ inside.indexes, p.2 < inside.values.length) :
    (inside.combineFrom outside).values.getD t 0 =
      inside.values.getD t 0 +
        combineContribution inside.indexes outside.indexes outside.values t := by
  unfold DifferentialContainer.combineFrom combineTrackVals
  simp only
  rw [buildUnique_eq]
  rw [applyGroups_getD _ _ _ _ _ hidx]
  congr 1
  unfold combineContribution slotGroups firstMatch
  rw [List.filter_map, List.map_map]
  rfl

theorem dictLookup_of_mem_nodup (idx : List (IKey × Nat)) (k : IKey) (s : Nat)
    (hnodup : (idx.map (fun p => p.1)).Nodup) (hmem : (k, s) ∈ idx) :
    dictLookup idx k = some s := by
  induction idx with
  | nil => simp at hmem
  | cons p rest ih =>
    obtain ⟨k', s'⟩ := p
    simp only [List.map_cons, List.nodup_cons] at hnodup
    rcases List.mem_cons.mp hmem with he | hmem'
    · simp only [Prod.mk.injEq] at he
      obtain ⟨rfl, rfl⟩ := he
      simp [dictLookup, List.find?]
    · by_cases hk : k' = k
      · subst hk
        exact absurd (List.mem_map.mpr ⟨(k', s), hmem', rfl⟩) hnodup.1
      · rw [show dictLookup ((k', s') :: rest) k = dictLookup rest k by
          simp [dictLookup, List.find?, hk]]
        exact ih hnodup.2 hmem'

theorem findSome?_all_same {α β : Type} (l : List α) (f : α → Option β) (b : β)
    (hne : l ≠ []) (h : ∀ a ∈ l, f a = some b) : l.findSome? f = some b := by
  cases l with
  | nil => exact absurd rfl hne
  | cons a rest =>
    rw [List.findSome?_cons, h a (by simp)]

theorem mem_idsOf (idx : List (IKey × Nat)) (s : Nat) (k : IKey) :
    k ∈ idsOf idx s ↔ (k, s) ∈ idx := by
  simp only [idsOf, List.mem_map, List.mem_filter, decide_eq_true_eq]
  constructor
  · rintro ⟨⟨k', s'⟩, ⟨hmem, rfl⟩, rfl⟩
    exact hmem
  · intro h
    exact ⟨(k, s), ⟨h, rfl⟩, rfl⟩

theorem filter_eq_of_nodup (l : List Nat) (t : Nat) (hnodup : l.Nodup) :
    l.filter (fun s => s = t) = if t ∈ l then [t] else [] := by
  induction l with
  | nil => simp
  | cons a rest ih =>
    simp only [List.nodup_cons] at hnodup
    by_cases ha : a = t
    · subst ha
      rw [List.filter_cons_of_pos (by simp)]
      rw [if_pos (by simp)]
      rw [ih hnodup.2, if_neg hnodup.1]
    · rw [List.filter_cons_of_neg (by simpa using ha)]
      rw [ih hnodup.2]
      by_cases ht : t ∈ rest <;>
        simp [ht, ha, Ne.symm ha]

theorem getD_replicate (n t : Nat) : (List.replicate n (0 : Int)).getD t 0 = 0 := by
  induction n generalizing t with
  | zero => simp
  | succ m ih =>
    cases t with
    | zero => simp [List.replicate]
    | succ t' => simp [List.replicate, ih t']

/-- Merging one track into a fresh all-zero track over the same index
reproduces the source values exactly. -/
theorem combineTrack_fresh_identity (n : Nat) (idx : List (IKey × Nat)) (v : List Int)
    (hnodup : (idx.map (fun p => p.1)).Nodup)
    (hbound : ∀ p ∈ idx, p.2 < n)
    (hlen : v.length = n)
    (hcover : ∀ t, t < n → v.getD t 0 ≠ 0 → ∃ k, (k, t) ∈ idx) :
    combineTrackVals (List.replicate n 0) idx v idx = v := by
  have hlenL : (combineTrackVals (List.replicate n 0) idx v idx).length = n := by
    unfold combineTrackVals
    rw [applyGroups_length]
    simp
  apply List.ext_getElem (by rw [hlenL, hlen])
  intro t h1 h2
  rw [← List.getD_eq_getElem _ 0 h1, ← List.getD_eq_getElem _ 0 h2]
  have ht : t < n := by rw [← hlenL]; exact h1
  unfold combineTrackVals
  rw [buildUnique_eq]
  rw [applyGroups_getD _ _ _ _ _ (by intro p hp; simpa using hbound p hp)]
  rw [getD_replicate]
  unfold slotGroups
  rw [List.filter_map, List.map_map]
  have hcongr : ∀ s ∈ firstOccurrences (nonzeroSlots idx v),
      ((fun g => decide ((g.2.findSome? fun k => dictLookup idx k) = some t)) ∘
        fun s => (s, idsOf idx s)) s = decide (s = t) := by
    intro s hs
    have hsn : s ∈ nonzeroSlots idx v := (mem_firstOccurrences _ _).mp hs
    simp only [nonzeroSlots, List.mem_filter, List.mem_map, decide_eq_true_eq] at hsn
    obtain ⟨⟨p, hpmem, hps⟩, hnz⟩ := hsn
    have hne : idsOf idx s ≠ [] := by
      intro hnil
      have : p.1 ∈ idsOf idx s := (mem_idsOf idx s p.1).mpr (by
        have : p = (p.1, s) := by
          obtain ⟨p1, p2⟩ := p
          simp only at hps
          simp [hps]
        rw [← this]
        exact hpmem)
      rw [hnil] at this
      simp at this
    have hall : ∀ k ∈ idsOf idx s, dictLookup idx k = some s := by
      intro k hk
      exact dictLookup_of_mem_nodup idx k s hnodup ((mem_idsOf idx s k).mp hk)
    simp only [Function.comp]
    rw [findSome?_all_same _ _ s hne hall]
    simp
  rw [List.filter_congr hcongr]
  rw [filter_eq_of_nodup _ t (firstOccurrences_nodup _)]
  by_cases htmem : t ∈ firstOccurrences (nonzeroSlots idx v)
  · rw [if_pos htmem]
    simp
  · rw [if_neg htmem]
    simp only [List.map_nil, List.sum_nil]
    by_contra hne0
    have hnz : v.getD t 0 ≠ 0 := fun h0 => hne0 (by rw [h0]; simp)
    obtain ⟨k, hk⟩ := hcover t ht hnz
    refine htmem ((mem_firstOccurrences _ _).mpr ?_)
    simp only [nonzeroSlots, List.mem_filter, List.mem_map, decide_eq_true_eq]
    exact ⟨⟨(k, t), hk, rfl⟩, hnz⟩

theorem pyIndex_getD (l : List (Option Team)) (x : Option Team) (h : x ∈ l) :
    l.getD (pyIndex l x) none = x := by
  induction l with
  | nil => simp at h
  | cons y ys ih =>
    by_cases hy : y = x
    · simp [pyIndex, hy]
    · rcases List.mem_cons.mp h with rfl | h'
      · exact absurd rfl hy
      · rw [show pyIndex (y :: ys) x = pyIndex ys x + 1 from by simp [pyIndex, hy]]
        rw [List.getD_cons_succ]
        exact ih h'

theorem pyIndex_lt (l : List (Option Team)) (x : Option Team) (h : x ∈ l) :
    pyIndex l x < l.length := by
  induction l with
  | nil => simp at h
  | cons y ys ih =>
    by_cases hy : y = x
    · simp [pyIndex, hy]
    · rcases List.mem_cons.mp h with rfl | h'
      · exact absurd rfl hy
      · simpa [pyIndex, hy] using ih h'

theorem pyIndex_unique (l : List (Option Team)) (x : Option Team) (i : Nat)
    (hnodup : l.Nodup) (hi : i < l.length) (hx : l.getD i none = x) :
    i = pyIndex l x := by
  induction l generalizing i with
  | nil => simp at hi
  | cons y ys ih =>
    simp only [List.nodup_cons] at hnodup
    cases i with
    | zero =>
      simp only [List.getD_cons_zero] at hx
      simp [pyIndex, hx]
    | succ i' =>
      simp only [List.getD_cons_succ] at hx
      have hi' : i' < ys.length := by simpa using hi
      have hmem : x ∈ ys := by
        rw [← hx, List.getD_eq_getElem _ _ hi']
        exact List.getElem_mem hi'
      have hyx : ¬(y = x) := fun he => hnodup.1 (he ▸ hmem)
      rw [show pyIndex (y :: ys) x = pyIndex ys x + 1 from by simp [pyIndex, hyx]]
      rw [ih i' hnodup.2 hi' hx]

theorem permsAux_mem (n : Nat) (l : List Nat) (p : List Nat) (hp : p ∈ permsAux n l)
    (hn : n = l.length) : ∀ x ∈ p, x ∈ l := by
  induction n generalizing l p with
  | zero =>
    simp only [permsAux, List.mem_singleton] at hp
    subst hp
    simp
  | succ m ih =>
    simp only [permsAux, List.mem_flatMap] at hp
    obtain ⟨i, hi, hp⟩ := hp
    simp only [List.mem_map] at hp
    obtain ⟨q, hq, rfl⟩ := hp
    intro x hx
    have hi' : i < l.length := List.mem_range.mp hi
    rcases List.mem_cons.mp hx with rfl | hx
    · rw [List.getD_eq_getElem _ _ hi']
      exact List.getElem_mem hi'
    · have hlen' : m = (l.eraseIdx i).length := by
        rw [List.length_eraseIdx]
        simp only [hi', if_true]
        omega
      exact List.eraseIdx_subset _ _ (ih (l.eraseIdx i) q hq hlen' x hx)

theorem snrLoop_finds (sg : List (Option Team)) (si : List Nat → List (Nat × Nat))
    (prev : List (Nat × Nat)) (ps : List (List Nat))
    (hex : ∃ p ∈ ps, ((si p).any (fun m => decide (m ∈ prev))) = false) :
    ∃ p ∈ ps, ((si p).any (fun m => decide (m ∈ prev))) = false ∧
      snrLoop sg si prev ps = some (p.map (fun i => sg.getD i none)) := by
  induction ps with
  | nil => simp at hex
  | cons q rest ih =>
    cases hq : (si q).any (fun m => decide (m ∈ prev)) with
    | false =>
      refine ⟨q, by simp, hq, ?_⟩
      simp [snrLoop, hq]
    | true =>
      obtain ⟨p, hp, hacc⟩ := hex
      rcases List.mem_cons.mp hp with rfl | hp'
      · rw [hq] at hacc
        simp at hacc
      · obtain ⟨p', hp'', hacc', hloop⟩ := ih ⟨p, hp', hacc⟩
        exact ⟨p', by simp [hp''], hacc', by simp [snrLoop, hq, hloop]⟩

theorem standardPairs_map {α β : Type} (f : α → β) (l : List α) :
    standardPairs (l.map f) = (standardPairs l).map (fun pr => (f pr.1, f pr.2)) := by
  unfold standardPairs
  simp only [List.length_map]
  by_cases hodd : l.length % 2 = 1
  · rw [if_pos hodd, if_pos hodd]
    rw [← List.map_dropLast]
    simp only [List.length_map, ← List.map_take, ← List.map_drop]
    rw [List.zip_map]
    rfl
  · rw [if_neg hodd, if_neg hodd]
    simp only [← List.map_take, ← List.map_drop, List.length_map]
    rw [List.zip_map]
    rfl

theorem standardPairs_mem {α : Type} (l : List α) (a b : α)
    (h : (a, b) ∈ standardPairs l) : a ∈ l ∧ b ∈ l := by
  unfold standardPairs at h
  set s := if l.length % 2 = 1 then l.dropLast else l with hs
  have hsub : s ⊆ l := by
    rw [hs]
    split
    · exact (List.dropLast_sublist l).subset
    · exact fun x hx => hx
  obtain ⟨ha, hb⟩ := List.of_mem_zip h
  exact ⟨hsub (List.take_subset _ _ ha), hsub (List.drop_subset _ _ hb)⟩

/-!
## Claim C5
-/

/-- C5: a fully resolved distinct 4-competitor seeding, one consumed series
whose two teams sit in the seeding, and at least one permutation whose
sequential pairings avoid both orientations of that pairing: the search
succeeds and the returned seeding's sequential pairings contain neither
orientation of the consumed pairing. -/
theorem sort_no_rematches_avoids_consumed_pairing (sg : List (Option Team)) (sc : SeriesContainer) (s : Series)
    (hlen : sg.length = 4) (hnodup : sg.Nodup) (hres : ∀ x ∈ sg, x.isSome = true)
    (hplayed : sc.getPlayedSeries = [s])
    (h1 : (some s.team_1) ∈ sg) (h2 : (some s.team_2) ∈ sg)
    (hAB : s.team_1 ≠ s.team_2)
    (hex : ∃ p ∈ rematchPermutations 4,
      ∀ pr ∈ standardPairs (p.map (fun i => sg.getD i none)),
        pr ≠ (some s.team_1, some s.team_2) ∧ pr ≠ (some s.team_2, some s.team_1)) :
    (Seeding.sortNoRematches sg sc standardPairs).success = true ∧
    ∀ pr ∈ standardPairs (Seeding.sortNoRematches sg sc standardPairs).seeding,
      pr ≠ (some s.team_1, some s.team_2) ∧ pr ≠ (some s.team_2, some s.team_1) := by
  set i := pyIndex sg (some s.team_1) with hi
  set j := pyIndex sg (some s.team_2) with hj
  have hprev : prevMatchupIndexes sg sc.getPlayedSeries = [(i, j), (j, i)] := by
    rw [hplayed]
    simp [prevMatchupIndexes, h1, h2]
  -- translate the existence hypothesis to index space
  have hexI : ∃ p ∈ rematchPermutations sg.length,
      ((standardPairs p).any (fun m => decide (m ∈ [(i, j), (j, i)]))) = false := by
    obtain ⟨p, hp, havoid⟩ := hex
    rw [hlen]
    refine ⟨p, hp, ?_⟩
    rw [List.any_eq_false]
    rintro ⟨x, y⟩ hxy
    simp only [decide_eq_true_eq, List.mem_cons, List.not_mem_nil, or_false, not_or]
    have hpair : (sg.getD x none, sg.getD y none) ∈
        standardPairs (p.map (fun i => sg.getD i none)) := by
      rw [standardPairs_map]
      exact List.mem_map.mpr ⟨(x, y), hxy, rfl⟩
    have havoid' := havoid _ hpair
    constructor
    · rintro ⟨rfl, rfl⟩
      exact havoid'.1 (by rw [hi, hj, pyIndex_getD _ _ h1, pyIndex_getD _ _ h2])
    · rintro ⟨rfl, rfl⟩
      exact havoid'.2 (by rw [hi, hj, pyIndex_getD _ _ h1, pyIndex_getD _ _ h2])
  obtain ⟨p', hp', hacc', hloop⟩ := snrLoop_finds sg standardPairs
    [(i, j), (j, i)] (rematchPermutations sg.length) hexI
  have hout : Seeding.sortNoRematches sg sc standardPairs =
      ⟨p'.map (fun i => sg.getD i none), true⟩ := by
    simp only [Seeding.sortNoRematches]
    rw [hprev, hloop]
  rw [hout]
  refine ⟨rfl, ?_⟩
  rintro ⟨a, b⟩ hab
  rw [show (⟨p'.map (fun i => sg.getD i none), true⟩ : SortNoRematchesOut).seeding
      = p'.map (fun i => sg.getD i none) from rfl] at hab
  rw [standardPairs_map] at hab
  obtain ⟨⟨x, y⟩, hxy, hfab⟩ := List.mem_map.mp hab
  simp only [Prod.mk.injEq] at hfab
  obtain ⟨hax, hby⟩ := hfab
  rw [List.any_eq_false] at hacc'
  have hnot := hacc' (x, y) hxy
  simp only [decide_eq_true_eq, List.mem_cons, List.not_mem_nil, or_false, not_or] at hnot
  have hxp : x ∈ p' := (standardPairs_mem p' x y hxy).1
  have hyp : y ∈ p' := (standardPairs_mem p' x y hxy).2
  have hxl : x < sg.length := by
    have := permsAux_mem sg.length (List.range sg.length) p' hp' (by simp) x hxp
    simpa using this
  have hyl : y < sg.length := by
    have := permsAux_mem sg.length (List.range sg.length) p' hp' (by simp) y hyp
    simpa using this
  constructor
  · rintro he
    simp only [Prod.mk.injEq] at he
    obtain ⟨ha, hb⟩ := he
    refine hnot.1 ?_
    rw [← hax] at ha
    rw [← hby] at hb
    rw [Prod.mk.injEq]
    exact ⟨pyIndex_unique sg _ x hnodup hxl ha, pyIndex_unique sg _ y hnodup hyl hb⟩
  · rintro he
    simp only [Prod.mk.injEq] at he
    obtain ⟨ha, hb⟩ := he
    refine hnot.2 ?_
    rw [← hax] at ha
    rw [← hby] at hb
    rw [Prod.mk.injEq]
    exact ⟨pyIndex_unique sg _ x hnodup hxl ha, pyIndex_unique sg _ y hnodup hyl hb⟩

theorem sort_no_rematches_avoids_consumed_pairing_witness :
    (Seeding.sortNoRematches [some teamA, some teamB, some teamC, some teamD]
        scConsumedAC standardPairs).success = true ∧
    ∀ pr ∈ standardPairs (Seeding.sortNoRematches
        [some teamA, some teamB, some teamC, some teamD] scConsumedAC
        standardPairs).seeding,
      pr ≠ (some teamA, some teamC) ∧ pr ≠ (some teamC, some teamA) :=
  sort_no_rematches_avoids_consumed_pairing [some teamA, some teamB, some teamC, some teamD] scConsumedAC
    { Series.make teamA teamC 3 1 none none none none none none with exhaused := true }
    (by decide) (by decide) (by decide) (by decide) (by decide) (by decide) (by decide)
    ⟨[0, 1, 3, 2], by decide, by decide⟩

/-- C6 witness: merging a two-competitor track with values `[7, -3]` into an
all-zero track over the same index adds each competitor's value once. -/
theorem combine_adds_once_per_competitor_witness :
    (DifferentialContainer.combineFrom ⟨[0, 0], idxAB2⟩ ⟨[7, -3], idxAB2⟩).values.getD 0 0 =
      ([0, 0] : List Int).getD 0 0 + combineContribution idxAB2 idxAB2 [7, -3] 0 :=
  combine_adds_once_per_competitor ⟨[0, 0], idxAB2⟩ ⟨[7, -3], idxAB2⟩ 0 (by decide)

/-- C9: a tracker loaded with values `vr/vv/vs/vd` over an index, combined
into a fresh all-zero tracker over the same index, makes every track value
of the fresh tracker equal to the corresponding source track value —
provided identifiers are unique (each competitor's key-set resolves to one
slot), slots are in range, and every nonzero slot is reachable through some
identifier (true of any tracker loaded via `add_raw`). -/
theorem combine_into_fresh_tracker_is_identity (n : Nat) (idx : List (IKey × Nat))
    (vr vv vs vd : List Int)
    (hnodup : (idx.map (fun p => p.1)).Nodup)
    (hbound : ∀ p ∈ idx, p.2 < n)
    (hr : vr.length = n) (hv : vv.length = n) (hs : vs.length = n) (hd : vd.length = n)
    (hcr : ∀ t, t < n → vr.getD t 0 ≠ 0 → ∃ k, (k, t) ∈ idx)
    (hcv : ∀ t, t < n → vv.getD t 0 ≠ 0 → ∃ k, (k, t) ∈ idx)
    (hcs : ∀ t, t < n → vs.getD t 0 ≠ 0 → ∃ k, (k, t) ∈ idx)
    (hcd : ∀ t, t < n → vd.getD t 0 ≠ 0 → ∃ k, (k, t) ∈ idx) :
    Differentials.combine
      ⟨⟨List.replicate n 0, idx⟩, ⟨List.replicate n 0, idx⟩,
       ⟨List.replicate n 0, idx⟩, ⟨List.replicate n 0, idx⟩⟩
      [⟨⟨vr, idx⟩, ⟨vv, idx⟩, ⟨vs, idx⟩, ⟨vd, idx⟩⟩] =
    ⟨⟨vr, idx⟩, ⟨vv, idx⟩, ⟨vs, idx⟩, ⟨vd, idx⟩⟩ := by
  unfold Differentials.combine
  simp only [List.foldl_cons, List.foldl_nil]
  unfold Differentials.combineOne DifferentialContainer.combineFrom
  simp only
  rw [combineTrack_fresh_identity n idx vr hnodup hbound hr hcr,
      combineTrack_fresh_identity n idx vv hnodup hbound hv hcv,
      combineTrack_fresh_identity n idx vs hnodup hbound hs hcs,
      combineTrack_fresh_identity n idx vd hnodup hbound hd hcd]

/-- C9 witness: a concrete two-competitor tracker combined into a fresh
all-zero tracker over the same index. -/
theorem combine_into_fresh_tracker_is_identity_witness :
    Differentials.combine
      ⟨⟨List.replicate 2 0, idxAB2⟩, ⟨List.replicate 2 0, idxAB2⟩,
       ⟨List.replicate 2 0, idxAB2⟩, ⟨List.replicate 2 0, idxAB2⟩⟩
      [⟨⟨[7, -3], idxAB2⟩, ⟨[1, 0], idxAB2⟩, ⟨[2, 5], idxAB2⟩, ⟨[0, 0], idxAB2⟩⟩] =
    ⟨⟨[7, -3], idxAB2⟩, ⟨[1, 0], idxAB2⟩, ⟨[2, 5], idxAB2⟩, ⟨[0, 0], idxAB2⟩⟩ :=
  by
  have hcov : ∀ (v : List Int) (t : Nat), t < 2 → v.getD t 0 ≠ 0 →
      ∃ k, (k, t) ∈ idxAB2 := by
    intro v t ht hnz
    match t, ht with
    | 0, _ => exact ⟨.str "A", by decide⟩
    | 1, _ => exact ⟨.str "B", by decide⟩
  exact combine_into_fresh_tracker_is_identity 2 idxAB2 [7, -3] [1, 0] [2, 5] [0, 0]
    (by decide) (by decide) (by decide) (by decide) (by decide) (by decide)
    (hcov _) (hcov _) (hcov _) (hcov _)
